import Mathlib

/-!
Verification of the Go client library `pypdftotext-client` (package `pdfclient`).

The Go source is shallowly embedded: Go strings are modeled as `List Char`
(one element per byte; exact for the ASCII data handled here), Go `int` and
`time.Duration` as `Int`, fallible operations as `Except`/`Option`.  Network,
file-system and JSON-codec effects are supplied through explicit environment
records, so every client method becomes a pure function of the client value,
the environment and its inputs.

Sections:
  * Go string helpers (models of the `strings` package functions the client uses)
  * the `ClientError` type with its `Error` rendering and classifier predicates
  * a model of the parts of Go `net/url` exercised by `NewClient`
    (`Parse` / `URL.String` with escaping, authority and fragment handling)
  * the `Client` record, functional options, `NewClient`
  * the HTTP methods (`HealthCheck`, `ExtractTextFromReader` / `FromBytes` /
    `FromFile`, `ExtractTextFromGCS`) and the JSON body of the GCS request
  * response shapes carrying per-page fragments with the full-text accessor
    (modelled from the spec: their defining file is not among the sources,
    while the tests and examples of the repository reference them)
  * theorems about the claims, with helper lemmas.
-/

set_option maxHeartbeats 1600000

/-- Go strings, modeled as lists of characters (bytes for the ASCII subset). -/
abbrev GoString := List Char

/-- Conversion from a Lean string literal to the Go string model. -/
def str (s : String) : GoString := s.data

/-- Model of Go `strings.HasPrefix` (second argument is the prefix tested). -/
def goStartsWith : GoString → GoString → Bool
  | _, [] => true
  | [], _ :: _ => false
  | c :: s, d :: t => c == d && goStartsWith s t

/-- Model of Go `strings.HasSuffix` (second argument is the suffix tested). -/
def goEndsWith (s pat : GoString) : Bool := goStartsWith s.reverse pat.reverse

/-- Model of Go `strings.Contains`: scans every position for the pattern. -/
def goContains : GoString → GoString → Bool
  | [], pat => goStartsWith [] pat
  | c :: t, pat => goStartsWith (c :: t) pat || goContains t pat

/-- Model of Go `strings.Cut` at the first occurrence of a one-byte separator:
returns the part before it and, when found, the part after it. -/
def cutChar (ch : Char) : GoString → GoString × Option GoString
  | [] => ([], none)
  | c :: t =>
    if c = ch then ([], some t)
    else
      match cutChar ch t with
      | (pre, rest) => (c :: pre, rest)

/-- Split at the last occurrence of a one-byte separator (Go `strings.LastIndex`
with a one-byte pattern): `some (before, after)` with the separator removed. -/
def cutLastChar (ch : Char) (s : GoString) : Option (GoString × GoString) :=
  match cutChar ch s.reverse with
  | (_, none) => none
  | (revAfter, some revBefore) => some (revBefore.reverse, revAfter.reverse)

/-- Split at the first occurrence of a multi-byte pattern (Go `strings.Index`):
`some (before, rest)` where `rest` still carries the pattern as its prefix. -/
def cutSubIncl (pat : GoString) : GoString → Option (GoString × GoString)
  | [] => if pat = [] then some ([], []) else none
  | c :: t =>
    if goStartsWith (c :: t) pat then some ([], c :: t)
    else
      match cutSubIncl pat t with
      | some (pre, rest) => some (c :: pre, rest)
      | none => none

/-- Model of Go `strings.TrimSuffix`: removes one copy of the suffix if present. -/
def goTrimSuffix (s pat : GoString) : GoString :=
  if goStartsWith s.reverse pat.reverse then (s.reverse.drop pat.length).reverse else s

/-- ASCII lower-casing of one character (Go `strings.ToLower` on ASCII data). -/
def asciiLower (c : Char) : Char :=
  if 65 ≤ c.toNat && c.toNat ≤ 90 then Char.ofNat (c.toNat + 32) else c

/-- Model of Go `strings.ToLower` for ASCII data. -/
def goToLower (s : GoString) : GoString := s.map asciiLower

/-- Model of Go `strings.Join`. -/
def joinStrings (sep : GoString) : List GoString → GoString
  | [] => []
  | [x] => x
  | x :: xs => x ++ sep ++ joinStrings sep xs

/-- The substring relation used to state claims about Go `strings.Contains`. -/
def SubstringOf (pat s : GoString) : Prop := ∃ a b, s = a ++ pat ++ b

/-! ## `ClientError` (client.go lines 117-162) -/

/-- Go `ClientError` struct: HTTP status code, raw body, parsed detail. -/
structure ClientError where
  StatusCode : Int
  Message : GoString
  Detail : GoString
  deriving Repr, DecidableEq

/-- Rendering of an `Int` the way Go `fmt.Sprintf("%d", ...)` prints it. -/
def intToStr (i : Int) : GoString := (toString i).data

/-- `ClientError.Error`: the `error` interface implementation of the source. -/
def ClientError.Error (e : ClientError) : GoString :=
  if e.Detail ≠ [] then
    str "API error (HTTP " ++ intToStr e.StatusCode ++ str "): " ++ e.Message
      ++ str " - " ++ e.Detail
  else
    str "API error (HTTP " ++ intToStr e.StatusCode ++ str "): " ++ e.Message

/-- `ClientError.IsInvalidPDFError` from the source: status 400 AND one of five
detail substrings (Go `strings.Contains`, case-sensitive). -/
def ClientError.IsInvalidPDFError (e : ClientError) : Bool :=
  e.StatusCode == 400 &&
    (goContains e.Detail (str "PDF file has syntax errors") ||
     goContains e.Detail (str "PDF file appears to be corrupted") ||
     goContains e.Detail (str "PDF file is incomplete or truncated") ||
     goContains e.Detail (str "Invalid PDF format") ||
     goContains e.Detail (str "file does not appear to be a valid PDF"))

/-- `ClientError.IsTimeoutError` from the source: status 408 OR detail
containing "timed out" (a disjunction in the code). -/
def ClientError.IsTimeoutError (e : ClientError) : Bool :=
  e.StatusCode == 408 || goContains e.Detail (str "timed out")

/-- `ClientError.IsFileSizeError` from the source: status 413 OR detail
containing "File too large" (a disjunction in the code). -/
def ClientError.IsFileSizeError (e : ClientError) : Bool :=
  e.StatusCode == 413 || goContains e.Detail (str "File too large")

/-- `ClientError.IsGCSPermissionError` from the source: status 403 AND detail
containing "Permission denied". -/
def ClientError.IsGCSPermissionError (e : ClientError) : Bool :=
  e.StatusCode == 403 && goContains e.Detail (str "Permission denied")

/-- `ClientError.IsGCSNotFoundError` from the source: status 404 AND detail
containing "not found" or "does not exist". -/
def ClientError.IsGCSNotFoundError (e : ClientError) : Bool :=
  e.StatusCode == 404 &&
    (goContains e.Detail (str "not found") || goContains e.Detail (str "does not exist"))

/-- The timeout classifier exactly as the spec words it (for comparison with
the code): a conjunction of status 408 and a case-insensitive substring match. -/
def specTimeoutClassifier (e : ClientError) : Bool :=
  e.StatusCode == 408 && goContains (goToLower e.Detail) (goToLower (str "timed out"))

/-- The permission classifier exactly as the spec words it (for comparison with
the code): a conjunction of status 403 and a case-insensitive substring match. -/
def specPermissionClassifier (e : ClientError) : Bool :=
  e.StatusCode == 403 && goContains (goToLower e.Detail) (goToLower (str "Permission denied"))

/-! ## Model of Go `net/url` (the subset exercised by `NewClient`)

`NewClient` normalizes its base URL via `url.Parse` and `URL.String`.  The
definitions below transcribe the corresponding Go standard-library functions
(`getScheme`, `parse` with `viaRequest = false`, `parseAuthority`, `parseHost`,
`setPath`, `setFragment`, `unescape`, `escape`, `shouldEscape`, `validEncoded`,
`validOptionalPort`, `validUserinfo`, `URL.String`, `URL.EscapedPath`,
`URL.EscapedFragment`) on the byte-list string model. -/

namespace NetURL

/-- The escaping contexts of Go `net/url` (`encoding` constants). -/
inductive Encoding
  | path
  | pathSegment
  | host
  | zone
  | userPassword
  | queryComponent
  | fragment
  deriving Repr, DecidableEq

def isAlphaNumByte (c : Char) : Bool :=
  (97 ≤ c.toNat && c.toNat ≤ 122) || (65 ≤ c.toNat && c.toNat ≤ 90) ||
  (48 ≤ c.toNat && c.toNat ≤ 57)

/-- Go `shouldEscape(c, mode)`. -/
def shouldEscape (c : Char) (mode : Encoding) : Bool :=
  if isAlphaNumByte c then false
  else if (mode = Encoding.host || mode = Encoding.zone) &&
      (c = '!' || c = '$' || c = '&' || c = '\'' || c = '(' || c = ')' ||
       c = '*' || c = '+' || c = ',' || c = ';' || c = '=' || c = ':' ||
       c = '[' || c = ']' || c = '<' || c = '>' || c = '"') then false
  else if c = '-' || c = '_' || c = '.' || c = '~' then false
  else if c = '$' || c = '&' || c = '+' || c = ',' || c = '/' || c = ':' ||
          c = ';' || c = '=' || c = '?' || c = '@' then
    match mode with
    | Encoding.path => c = '?'
    | Encoding.pathSegment => c = '/' || c = ';' || c = ',' || c = '?'
    | Encoding.userPassword => c = '@' || c = '/' || c = '?' || c = ':'
    | Encoding.queryComponent => true
    | Encoding.fragment => false
    | _ => true
  else if mode = Encoding.fragment && (c = '!' || c = '(' || c = ')' || c = '*') then false
  else true

def ishex (c : Char) : Bool :=
  (48 ≤ c.toNat && c.toNat ≤ 57) || (97 ≤ c.toNat && c.toNat ≤ 102) ||
  (65 ≤ c.toNat && c.toNat ≤ 70)

def unhex (c : Char) : Nat :=
  if 48 ≤ c.toNat && c.toNat ≤ 57 then c.toNat - 48
  else if 97 ≤ c.toNat && c.toNat ≤ 102 then c.toNat - 97 + 10
  else if 65 ≤ c.toNat && c.toNat ≤ 70 then c.toNat - 65 + 10
  else 0

/-- Go `unescape(s, mode)`: validates and decodes percent escapes; in host and
zone modes it also rejects disallowed ASCII bytes and low percent escapes.
The byte switch of the Go loop becomes a conditional chain on the head. -/
def unescape (mode : Encoding) : GoString → Except GoString GoString
  | [] => .ok []
  | c :: t =>
    if c = '%' then
      match t with
      | a :: b :: tail =>
        if !(ishex a && ishex b) then .error (str "invalid URL escape")
        else if mode = Encoding.host && unhex a < 8 && !(a = '2' && b = '5') then
          .error (str "invalid URL escape")
        else if mode = Encoding.zone && !(a = '2' && b = '5') &&
            !(unhex a * 16 + unhex b = 32) &&
            shouldEscape (Char.ofNat (unhex a * 16 + unhex b)) Encoding.host then
          .error (str "invalid URL escape")
        else
          match unescape mode tail with
          | .ok r => .ok (Char.ofNat (unhex a * 16 + unhex b) :: r)
          | .error e => .error e
      | _ => .error (str "invalid URL escape")
    else if c = '+' then
      match unescape mode t with
      | .ok r => .ok ((if mode = Encoding.queryComponent then ' ' else '+') :: r)
      | .error e => .error e
    else
      if (mode = Encoding.host || mode = Encoding.zone) && c.toNat < 128 &&
          shouldEscape c mode then
        .error (str "invalid character in host name")
      else
        match unescape mode t with
        | .ok r => .ok (c :: r)
        | .error e => .error e

def upperHexDigit (n : Nat) : Char :=
  if n < 10 then Char.ofNat (48 + n) else Char.ofNat (65 + n - 10)

/-- One character of Go `escape(s, mode)`. -/
def escapeChar (mode : Encoding) (c : Char) : GoString :=
  if shouldEscape c mode then
    if c = ' ' && mode = Encoding.queryComponent then ['+']
    else ['%', upperHexDigit (c.toNat / 16), upperHexDigit (c.toNat % 16)]
  else [c]

/-- Go `escape(s, mode)`. -/
def escape (mode : Encoding) (s : GoString) : GoString := s.flatMap (escapeChar mode)

/-- Go `validEncoded(s, mode)`. -/
def validEncoded (s : GoString) (mode : Encoding) : Bool :=
  s.all fun c =>
    if c = '!' || c = '$' || c = '&' || c = '\'' || c = '(' || c = ')' ||
       c = '*' || c = '+' || c = ',' || c = ';' || c = '=' || c = ':' || c = '@' then true
    else if c = '[' || c = ']' then true
    else if c = '%' then true
    else !shouldEscape c mode

/-- Go `validOptionalPort`. -/
def validOptionalPort : GoString → Bool
  | [] => true
  | ':' :: rest => rest.all fun c => 48 ≤ c.toNat && c.toNat ≤ 57
  | _ => false

/-- Go `validUserinfo`. -/
def validUserinfo (s : GoString) : Bool :=
  s.all fun c =>
    isAlphaNumByte c || c = '-' || c = '.' || c = '_' || c = ':' || c = '~' ||
    c = '!' || c = '$' || c = '&' || c = '\'' || c = '(' || c = ')' || c = '*' ||
    c = '+' || c = ',' || c = ';' || c = '=' || c = '%' || c = '@'

/-- Go `url.Userinfo`. -/
structure Userinfo where
  username : GoString
  password : GoString
  passwordSet : Bool
  deriving Repr, DecidableEq

/-- Go `Userinfo.String`. -/
def Userinfo.render (u : Userinfo) : GoString :=
  escape Encoding.userPassword u.username ++
    (if u.passwordSet then ':' :: escape Encoding.userPassword u.password else [])

/-- Go `url.URL` (fields used by this client; `Opaque` is called `opq`). -/
structure URL where
  scheme : GoString
  opq : GoString
  user : Option Userinfo
  host : GoString
  path : GoString
  rawPath : GoString
  omitHost : Bool
  forceQuery : Bool
  rawQuery : GoString
  fragment : GoString
  rawFragment : GoString
  deriving Repr, DecidableEq

def emptyURL : URL :=
  { scheme := [], opq := [], user := none, host := [], path := [], rawPath := [],
    omitHost := false, forceQuery := false, rawQuery := [], fragment := [],
    rawFragment := [] }

/-- Outcome of Go `getScheme`. -/
inductive SchemeResult
  | err (msg : GoString)
  | noScheme
  | found (scheme rest : GoString)
  deriving Repr, DecidableEq

def getSchemeAux : GoString → GoString → SchemeResult
  | _, [] => SchemeResult.noScheme
  | acc, c :: t =>
    if (97 ≤ c.toNat && c.toNat ≤ 122) || (65 ≤ c.toNat && c.toNat ≤ 90) then
      getSchemeAux (acc ++ [c]) t
    else if (48 ≤ c.toNat && c.toNat ≤ 57) || c = '+' || c = '-' || c = '.' then
      if acc = [] then SchemeResult.noScheme else getSchemeAux (acc ++ [c]) t
    else if c = ':' then
      if acc = [] then SchemeResult.err (str "missing protocol scheme")
      else SchemeResult.found acc t
    else SchemeResult.noScheme

/-- Go `getScheme(rawURL)`: splits a leading `scheme:` when present. -/
def getScheme (s : GoString) : Except GoString (GoString × GoString) :=
  match getSchemeAux [] s with
  | SchemeResult.err m => .error m
  | SchemeResult.noScheme => .ok ([], s)
  | SchemeResult.found sch rest => .ok (sch, rest)

/-- Go `parseHost`. -/
def parseHost (host : GoString) : Except GoString GoString :=
  if goStartsWith host (str "[") then
    match cutLastChar ']' host with
    | none => .error (str "missing right bracket in host")
    | some (before, after) =>
      if !validOptionalPort after then .error (str "invalid port after host")
      else
        match cutSubIncl (str "%25") before with
        | some (pre, zonePart) =>
          match unescape Encoding.host pre with
          | .error e => .error e
          | .ok host1 =>
            match unescape Encoding.zone zonePart with
            | .error e => .error e
            | .ok host2 =>
              match unescape Encoding.host (']' :: after) with
              | .error e => .error e
              | .ok host3 => .ok (host1 ++ host2 ++ host3)
        | none => unescape Encoding.host host
  else
    match cutLastChar ':' host with
    | some (_, afterColon) =>
      if !validOptionalPort (':' :: afterColon) then .error (str "invalid port after host")
      else unescape Encoding.host host
    | none => unescape Encoding.host host

/-- Go `parseAuthority`. -/
def parseAuthority (authority : GoString) : Except GoString (Option Userinfo × GoString) :=
  match cutLastChar '@' authority with
  | none =>
    match parseHost authority with
    | .error e => .error e
    | .ok h => .ok (none, h)
  | some (userinfo, hostPart) =>
    match parseHost hostPart with
    | .error e => .error e
    | .ok h =>
      if !validUserinfo userinfo then .error (str "net/url: invalid userinfo")
      else
        match cutChar ':' userinfo with
        | (_, none) =>
          match unescape Encoding.userPassword userinfo with
          | .error e => .error e
          | .ok u => .ok (some ⟨u, [], false⟩, h)
        | (username, some password) =>
          match unescape Encoding.userPassword username with
          | .error e => .error e
          | .ok un =>
            match unescape Encoding.userPassword password with
            | .error e => .error e
            | .ok pw => .ok (some ⟨un, pw, true⟩, h)

/-- Go `URL.setPath`. -/
def setPath (u : URL) (p : GoString) : Except GoString URL :=
  match unescape Encoding.path p with
  | .error e => .error e
  | .ok pth =>
    .ok { u with path := pth, rawPath := if escape Encoding.path pth = p then [] else p }

/-- Go `URL.setFragment`. -/
def setFragment (u : URL) (f : GoString) : Except GoString URL :=
  match unescape Encoding.fragment f with
  | .error e => .error e
  | .ok fr =>
    .ok { u with fragment := fr,
                 rawFragment := if escape Encoding.fragment fr = f then [] else f }

/-- Go `stringContainsCTLByte`. -/
def containsCTLByte (s : GoString) : Bool := s.any fun c => c.toNat < 32 || c.toNat = 127

/-- The authority-and-path phase of Go `parse` (after scheme and query split). -/
def afterQuery (baseU : URL) (rest : GoString) : Except GoString URL :=
  let authorityStep : Except GoString URL :=
    if (baseU.scheme ≠ [] || !goStartsWith rest (str "///")) &&
        goStartsWith rest (str "//") then
      let afterSlashes := rest.drop 2
      let split := cutChar '/' afterSlashes
      let authority := split.1
      let rest2 : GoString := match split.2 with
        | some post => '/' :: post
        | none => []
      match parseAuthority authority with
      | .error e => .error e
      | .ok (user, host) => setPath { baseU with user := user, host := host } rest2
    else if baseU.scheme ≠ [] && goStartsWith rest (str "/") then
      setPath { baseU with omitHost := true } rest
    else
      setPath baseU rest
  if !goStartsWith rest (str "/") then
    if baseU.scheme ≠ [] then
      .ok { baseU with opq := rest }
    else
      if goContains (cutChar '/' rest).1 (str ":") then
        .error (str "first path segment in URL cannot contain colon")
      else authorityStep
  else authorityStep

/-- Go `parse(rawURL, viaRequest: false)` (without the fragment, as in Go). -/
def parseRaw (rawURL : GoString) : Except GoString URL :=
  if containsCTLByte rawURL then .error (str "net/url: invalid control character in URL")
  else if rawURL = str "*" then .ok { emptyURL with path := str "*" }
  else
    match getScheme rawURL with
    | .error e => .error e
    | .ok (sch, rest0) =>
      let scheme := goToLower sch
      let cutQ :=
        if goEndsWith rest0 (str "?") &&
            !(goContains (goTrimSuffix rest0 (str "?")) (str "?")) then
          (goTrimSuffix rest0 (str "?"), true, ([] : GoString))
        else
          match cutChar '?' rest0 with
          | (before, some after) => (before, false, after)
          | (before, none) => (before, false, ([] : GoString))
      afterQuery { emptyURL with scheme := scheme, forceQuery := (cutQ.2).1,
                                 rawQuery := (cutQ.2).2 } cutQ.1

/-- Go `url.Parse`: splits the fragment, parses, then sets the fragment. -/
def Parse (rawURL : GoString) : Except GoString URL :=
  let cutF := cutChar '#' rawURL
  match parseRaw cutF.1 with
  | .error e => .error e
  | .ok url =>
    match cutF.2 with
    | none => .ok url
    | some f => if f = [] then .ok url else setFragment url f

/-- Go `URL.EscapedPath`. -/
def escapedPath (u : URL) : GoString :=
  if u.rawPath ≠ [] && validEncoded u.rawPath Encoding.path &&
      (match unescape Encoding.path u.rawPath with
       | .ok p => p = u.path
       | .error _ => false) then u.rawPath
  else if u.path = str "*" then str "*"
  else escape Encoding.path u.path

/-- Go `URL.EscapedFragment`. -/
def escapedFragment (u : URL) : GoString :=
  if u.rawFragment ≠ [] && validEncoded u.rawFragment Encoding.fragment &&
      (match unescape Encoding.fragment u.rawFragment with
       | .ok f => f = u.fragment
       | .error _ => false) then u.rawFragment
  else escape Encoding.fragment u.fragment

def querySuffix (u : URL) : GoString :=
  if u.forceQuery || u.rawQuery ≠ [] then '?' :: u.rawQuery else []

def fragSuffix (u : URL) : GoString :=
  if u.fragment ≠ [] then '#' :: escapedFragment u else []

/-- Go `URL.String`. -/
def urlString (u : URL) : GoString :=
  let b0 : GoString := if u.scheme ≠ [] then u.scheme ++ [':'] else []
  if u.opq ≠ [] then b0 ++ u.opq ++ querySuffix u ++ fragSuffix u
  else
    let b1 :=
      if u.scheme ≠ [] || u.host ≠ [] || u.user.isSome then
        if u.omitHost && u.host = [] && u.user = none then b0
        else
          let a0 := if u.host ≠ [] || u.path ≠ [] || u.user.isSome
                    then b0 ++ str "//" else b0
          let a1 := match u.user with
                    | some ui => a0 ++ Userinfo.render ui ++ ['@']
                    | none => a0
          if u.host ≠ [] then a1 ++ escape Encoding.host u.host else a1
      else b0
    let pth := escapedPath u
    let b2 := if pth ≠ [] && pth.head? ≠ some '/' && u.host ≠ [] then b1 ++ ['/'] else b1
    let b3 := if b2 = [] && goContains (cutChar '/' pth).1 (str ":")
              then b2 ++ str "./" else b2
    b3 ++ pth ++ querySuffix u ++ fragSuffix u

end NetURL

/-! ## The client (client.go lines 19-87) -/

/-- Go `http.Client` as configured here: only its `Timeout` matters (seconds). -/
structure GoHTTPClient where
  timeout : Int
  deriving Repr, DecidableEq

/-- Go `Client` struct. -/
structure Client where
  BaseURL : GoString
  HTTPClient : GoHTTPClient
  UserAgent : GoString
  Debug : Bool
  Timeout : Int
  APIKey : GoString
  deriving Repr, DecidableEq

/-- Go `ClientOption`: a mutator applied to the client under construction. -/
def ClientOption := Client → Client

/-- `WithHTTPClient` option. -/
def WithHTTPClient (hc : GoHTTPClient) : ClientOption := fun c => { c with HTTPClient := hc }

/-- `WithUserAgent` option. -/
def WithUserAgent (ua : GoString) : ClientOption := fun c => { c with UserAgent := ua }

/-- `WithDebug` option. -/
def WithDebug (d : Bool) : ClientOption := fun c => { c with Debug := d }

/-- `WithTimeout` option (duration in seconds). -/
def WithTimeout (t : Int) : ClientOption := fun c => { c with Timeout := t }

/-- `WithAPIKey` option. -/
def WithAPIKey (k : GoString) : ClientOption := fun c => { c with APIKey := k }

/-- `NewClient`: prepends "http://" when "://" is absent, parses the URL,
strips one trailing slash from the path, re-serializes it, then applies the
options in order over the defaults. -/
def NewClient (baseURL : GoString) (options : List ClientOption) : Except GoString Client :=
  let baseURL1 := if goContains baseURL (str "://") then baseURL
                  else str "http://" ++ baseURL
  match NetURL.Parse baseURL1 with
  | .error e => .error (str "invalid base URL: " ++ e)
  | .ok parsedURL =>
    let parsedURL := { parsedURL with path := goTrimSuffix parsedURL.path (str "/") }
    let client : Client :=
      { BaseURL := NetURL.urlString parsedURL,
        HTTPClient := { timeout := 60 },
        UserAgent := str "Go-PyPDFToTextClient/1.0",
        Debug := false,
        Timeout := 120,
        APIKey := [] }
    .ok (options.foldl (fun c o => o c) client)

/-- The stored base URL of a freshly constructed client, when construction
succeeds and no option rewrites it. -/
def newClientBaseURL (baseURL : GoString) : Option GoString :=
  match NewClient baseURL [] with
  | .ok c => some c.BaseURL
  | .error _ => none

/-! ## Response types (client.go lines 89-115) -/

/-- Go `HealthResponse`. -/
structure HealthResponse where
  Status : GoString
  Version : GoString
  deriving Repr, DecidableEq

/-- Go `TextExtractionResponse` as declared in the provided source file. -/
structure TextExtractionResponse where
  Text : GoString
  PageCount : Int
  FileName : GoString
  FileSize : Int
  deriving Repr, DecidableEq

/-- Go `GCSExtractionRequest`.  The two pointer-typed fields are options;
`Method` is a plain string whose zero value means "unset". -/
structure GCSExtractionRequest where
  InputGCSURL : GoString
  OutputGCSURL : Option GoString
  Method : GoString
  ProjectID : Option GoString
  deriving Repr, DecidableEq

/-- Go `GCSExtractionResponse`. -/
structure GCSExtractionResponse where
  Text : GoString
  PageCount : Int
  FileName : GoString
  FileSize : Int
  Method : GoString
  OutputLocation : Option GoString
  deriving Repr, DecidableEq

/-! ## JSON body of the GCS request (encoding/json model)

`json.Marshal` of `GCSExtractionRequest` produces one JSON object whose keys
appear in struct order; fields tagged `omitempty` are dropped when the pointer
is nil (for the two `*string` fields) or the string is empty (for `method`). -/

/-- The ordered key/value list of the marshaled `GCSExtractionRequest`. -/
def gcsRequestFields (r : GCSExtractionRequest) : List (GoString × GoString) :=
  [(str "input_gcs_url", r.InputGCSURL)]
  ++ (match r.OutputGCSURL with
      | some u => [(str "output_gcs_url", u)]
      | none => [])
  ++ (if r.Method = [] then [] else [(str "method", r.Method)])
  ++ (match r.ProjectID with
      | some p => [(str "project_id", p)]
      | none => [])

/-- The defaulting step of `ExtractTextFromGCS` (lines 324-327): the method
field of the local copy is set to "auto" when it is the empty string. -/
def gcsDefaultMethod (r : GCSExtractionRequest) : GCSExtractionRequest :=
  if r.Method = [] then { r with Method := str "auto" } else r

def fieldKeys (fs : List (GoString × GoString)) : List GoString := fs.map (·.1)

def fieldLookup (k : GoString) : List (GoString × GoString) → Option GoString
  | [] => none
  | (k', v) :: t => if k' = k then some v else fieldLookup k t

/-- JSON string escaping for the value characters that occur here. -/
def jsonEscapeChar (c : Char) : GoString :=
  if c = '"' then str "\\\""
  else if c = '\\' then str "\\\\"
  else if c = '\n' then str "\\n"
  else if c = '\r' then str "\\r"
  else if c = '\t' then str "\\t"
  else [c]

def jsonQuote (s : GoString) : GoString := '"' :: s.flatMap jsonEscapeChar ++ ['"']

/-- Rendering of the marshaled object from its key/value list. -/
def renderJSONObject (fields : List (GoString × GoString)) : GoString :=
  [Char.ofNat 123]
  ++ joinStrings [','] (fields.map fun kv => jsonQuote kv.1 ++ [':'] ++ jsonQuote kv.2)
  ++ [Char.ofNat 125]

/-! ## The HTTP methods (client.go lines 164-391)

Effects are factored into an environment: `transport` models `HTTPClient.Do`
(receiving the effective time budget of the call), `fs` models `os.Open` plus
reading, `codec` models the `encoding/json` decodings the client performs, and
`boundary` models the random boundary drawn by `multipart.NewWriter`. -/

/-- Go `context.Context`, reduced to its deadline (remaining seconds). -/
structure Ctx where
  deadline : Option Int
  deriving Repr, DecidableEq

/-- An HTTP response as seen by the client: status code and body. -/
structure HTTPResponse where
  statusCode : Int
  body : GoString
  deriving Repr, DecidableEq

/-- Results of the JSON decodings the client can attempt on a body. -/
structure JSONCodec where
  detailOf : GoString → Option GoString
  healthOf : GoString → Option HealthResponse
  extractOf : GoString → Option TextExtractionResponse
  gcsOf : GoString → Option GCSExtractionResponse

/-- An outgoing HTTP request. -/
structure Request where
  httpMethod : GoString
  url : GoString
  headers : List (GoString × GoString)
  body : GoString
  deriving Repr, DecidableEq

/-- The effect environment of one call. -/
structure Env where
  codec : JSONCodec
  transport : Option Int → Request → Except GoString HTTPResponse
  fs : GoString → Option GoString
  boundary : GoString

/-- Errors surfaced by the client methods: either a typed `ClientError` or a
wrapped message (request construction, transport or decode failures). -/
inductive GoError
  | api (e : ClientError)
  | wrapped (msg : GoString)
  deriving Repr, DecidableEq

def isAPIError {α : Type} : Except GoError α → Bool
  | .error (.api _) => true
  | _ => false

/-- Model of the deadline semantics of Go `http.Client.Do`: the request is
bound by the earlier of the context deadline and the `http.Client` timeout
(a zero timeout means no client-side limit). -/
def effectiveBudget (httpTimeout : Int) (ctxDeadline : Option Int) : Option Int :=
  if httpTimeout = 0 then ctxDeadline
  else
    match ctxDeadline with
    | none => some httpTimeout
    | some d => some (min d httpTimeout)

/-- The time budget governing one request of this client.  The methods hand
the caller's context to `http.NewRequestWithContext` unchanged, so only the
`HTTPClient` timeout and the context deadline take part; the `Timeout` field
of the client is read nowhere. -/
def requestBudget (c : Client) (ctx : Ctx) : Option Int :=
  effectiveBudget c.HTTPClient.timeout ctx.deadline

/-- The `detail` extraction shared by the non-200 paths (e.g. lines 199-207):
the body is decoded into `struct{ Detail string }` and the detail is kept only
when decoding succeeded and it is non-empty. -/
def extractDetail (detailOf : GoString → Option GoString) (body : GoString) : GoString :=
  match detailOf body with
  | some d => if d = [] then [] else d
  | none => []

/-- The response handling shared verbatim by the three network methods
(lines 195-214, 292-311, 364-383 plus the success decode): a non-200 status
yields a `ClientError` from status, raw body and extracted detail; a 200
status decodes the success body. -/
def handleAPIResponse {α : Type} (detailOf : GoString → Option GoString)
    (decode : GoString → Option α) (resp : HTTPResponse) : Except GoError α :=
  if resp.statusCode ≠ 200 then
    .error (.api { StatusCode := resp.statusCode, Message := resp.body,
                   Detail := extractDetail detailOf resp.body })
  else
    match decode resp.body with
    | some v => .ok v
    | none => .error (.wrapped (str "error decoding response"))

/-- The `User-Agent` and `X-API-Key` headers, set when non-empty. -/
def authHeaders (c : Client) : List (GoString × GoString) :=
  (if c.UserAgent ≠ [] then [(str "User-Agent", c.UserAgent)] else [])
  ++ (if c.APIKey ≠ [] then [(str "X-API-Key", c.APIKey)] else [])

/-- `HealthCheck` (lines 164-222), result component. -/
def healthCheckResult (c : Client) (env : Env) (ctx : Ctx) : Except GoError HealthResponse :=
  let reqURL := c.BaseURL ++ str "/health"
  let req : Request := { httpMethod := str "GET", url := reqURL,
                         headers := authHeaders c, body := [] }
  match env.transport (requestBudget c ctx) req with
  | .error e => .error (.wrapped (str "error making request: " ++ e))
  | .ok resp => handleAPIResponse env.codec.detailOf env.codec.healthOf resp

/-- `HealthCheck`: the result paired with the debug lines printed. -/
def Client.HealthCheck (c : Client) (env : Env) (ctx : Ctx) :
    Except GoError HealthResponse × List GoString :=
  (healthCheckResult c env ctx,
   if c.Debug then [str "DEBUG: Making request to " ++ c.BaseURL ++ str "/health"] else [])

/-- The multipart body written by `multipart.NewWriter` + `CreateFormFile` +
`io.Copy` + `Close` (lines 247-261): one file part named "file". -/
def multipartFileBody (boundary fileName content : GoString) : GoString :=
  str "--" ++ boundary ++ str "\r\n" ++
  str "Content-Disposition: form-data; name=\"file\"; filename=\"" ++
  (fileName.flatMap fun c => if c = '\\' || c = '"' then ['\\', c] else [c]) ++
  str "\"\r\n" ++
  str "Content-Type: application/octet-stream\r\n\r\n" ++
  content ++ str "\r\n--" ++ boundary ++ str "--\r\n"

/-- `ExtractTextFromReader` (lines 244-319), result component; the reader is
modeled by the byte content it yields. -/
def extractReaderResult (c : Client) (env : Env) (ctx : Ctx)
    (reader fileName : GoString) : Except GoError TextExtractionResponse :=
  let reqURL := c.BaseURL ++ str "/extract"
  let req : Request :=
    { httpMethod := str "POST", url := reqURL,
      headers := (str "Content-Type", str "multipart/form-data; boundary=" ++ env.boundary)
                   :: authHeaders c,
      body := multipartFileBody env.boundary fileName reader }
  match env.transport (requestBudget c ctx) req with
  | .error e => .error (.wrapped (str "error making request: " ++ e))
  | .ok resp => handleAPIResponse env.codec.detailOf env.codec.extractOf resp

/-- `ExtractTextFromReader`: the result paired with the debug lines printed. -/
def Client.ExtractTextFromReader (c : Client) (env : Env) (ctx : Ctx)
    (reader fileName : GoString) : Except GoError TextExtractionResponse × List GoString :=
  (extractReaderResult c env ctx reader fileName,
   if c.Debug then
     [str "DEBUG: Making request to " ++ c.BaseURL ++ str "/extract" ++
      str " with file " ++ fileName]
   else [])

/-- `ExtractTextFromBytes` (lines 239-242): wraps the bytes in a reader and
delegates. -/
def Client.ExtractTextFromBytes (c : Client) (env : Env) (ctx : Ctx)
    (fileContent fileName : GoString) : Except GoError TextExtractionResponse × List GoString :=
  Client.ExtractTextFromReader c env ctx fileContent fileName

/-- Model of `path/filepath.Base` on slash-separated paths. -/
def filepathBase (path : GoString) : GoString :=
  if path = [] then str "."
  else
    let p := (path.reverse.dropWhile fun c => c = '/').reverse
    let last := (p.reverse.takeWhile fun c => c ≠ '/').reverse
    if last = [] then str "/" else last

/-- `ExtractTextFromFile` (lines 224-237): opens the file and delegates to
`ExtractTextFromReader` with the base name of the path. -/
def Client.ExtractTextFromFile (c : Client) (env : Env) (ctx : Ctx)
    (filePath : GoString) : Except GoError TextExtractionResponse × List GoString :=
  match env.fs filePath with
  | none => (.error (.wrapped (str "error opening file")), [])
  | some content => Client.ExtractTextFromReader c env ctx content (filepathBase filePath)

/-- `ExtractTextFromGCS` (lines 321-391), result component. -/
def extractGCSResult (c : Client) (env : Env) (ctx : Ctx)
    (request : GCSExtractionRequest) : Except GoError GCSExtractionResponse :=
  let reqURL := c.BaseURL ++ str "/extract-from-gcs"
  let request1 := gcsDefaultMethod request
  let req : Request :=
    { httpMethod := str "POST", url := reqURL,
      headers := (str "Content-Type", str "application/json") :: authHeaders c,
      body := renderJSONObject (gcsRequestFields request1) }
  match env.transport (requestBudget c ctx) req with
  | .error e => .error (.wrapped (str "error making request: " ++ e))
  | .ok resp => handleAPIResponse env.codec.detailOf env.codec.gcsOf resp

/-- `ExtractTextFromGCS`: the result paired with the debug lines printed. -/
def Client.ExtractTextFromGCS (c : Client) (env : Env) (ctx : Ctx)
    (request : GCSExtractionRequest) : Except GoError GCSExtractionResponse × List GoString :=
  (extractGCSResult c env ctx request,
   if c.Debug then
     [str "DEBUG: Making request to " ++ c.BaseURL ++ str "/extract-from-gcs" ++
      str " with GCS URL " ++ request.InputGCSURL]
   else [])

/-! ## Paginated response shape and full-text accessor

Modelled from the spec: the response type carrying an ordered list of
per-page fragments and the `GetFullText` accessor are referenced by the
tests (`result.Pages`, `result.GetFullText()`) and the examples of the
repository, but the file defining them is not among the provided sources.
Following spec sections 3, 4.3 and 6: the wire shape is either flat
`{text, page_count, file_name, file_size}` or paginated
`{pages:[{page,text}], page_count, file_name, file_size}`; decoding copies
the fields; the accessor joins page texts with a blank line ("\n\n") when
pages are present and returns the flat text verbatim otherwise. -/

/-- Modelled from the spec: one page fragment `{page, text}`. -/
structure PageText where
  page : Int
  text : GoString
  deriving Repr, DecidableEq

/-- Modelled from the spec: the two wire shapes of an extraction response
(spec section 6), with `page_count` its own field in both. -/
inductive ExtractionBody
  | flat (text : GoString) (pageCount : Int) (fileName : GoString) (fileSize : Int)
  | paginated (pages : List PageText) (pageCount : Int) (fileName : GoString) (fileSize : Int)
  deriving Repr, DecidableEq

/-- Modelled from the spec: the decoded extraction result (spec section 3,
"ExtractionResult"); absent fields decode to their zero values, present
fields are copied. -/
structure ExtractionResult where
  text : GoString
  pages : List PageText
  pageCount : Int
  fileName : GoString
  fileSize : Int
  deriving Repr, DecidableEq

/-- Modelled from the spec: JSON decoding of either wire shape into the
result record (field-by-field copy, as `json.Unmarshal` performs). -/
def decodeExtractionBody : ExtractionBody → ExtractionResult
  | .flat t pc fn fsz => { text := t, pages := [], pageCount := pc, fileName := fn, fileSize := fsz }
  | .paginated ps pc fn fsz => { text := [], pages := ps, pageCount := pc, fileName := fn, fileSize := fsz }

/-- Modelled from the spec: the full-text accessor, joining page texts with
a blank line when pages are present, otherwise returning the flat text. -/
def ExtractionResult.GetFullText (r : ExtractionResult) : GoString :=
  if r.pages ≠ [] then joinStrings (str "\n\n") (r.pages.map PageText.text) else r.text

/-! ## Well-formed base-URL inputs (for the normalization theorem)

The round-trip part of the URL-normalization claim is proved for inputs of
the shape `host[:port][/seg...][/]` whose characters URL parsing and
re-serialization leave unchanged. -/

/-- Host characters of the well-formed inputs: letters, digits, dot, dash. -/
def hostChar (c : Char) : Bool :=
  NetURL.isAlphaNumByte c || c = '.' || c = '-'

/-- Path-segment characters of the well-formed inputs: the bytes that neither
path unescaping nor path escaping rewrites. -/
def segChar (c : Char) : Bool :=
  NetURL.isAlphaNumByte c || c = '-' || c = '_' || c = '.' || c = '~' ||
  c = '$' || c = '&' || c = '+' || c = ',' || c = ';' || c = '=' || c = '@'

def isDigitByte (c : Char) : Bool := 48 ≤ c.toNat && c.toNat ≤ 57

def lowerAlpha (c : Char) : Bool := 97 ≤ c.toNat && c.toNat ≤ 122

/-- The authority part written from a host and an optional port. -/
def authorityOf (host : GoString) (port : Option GoString) : GoString :=
  host ++ (match port with
           | some p => ':' :: p
           | none => [])

/-- The path written from slash-prefixed segments and an optional trailing
slash. -/
def pathOf (segs : List GoString) (trail : Bool) : GoString :=
  segs.flatMap (fun s => '/' :: s) ++ (if trail then ['/'] else [])

/-- A well-formed scheme-less base-URL input: authority followed by a path. -/
def simpleInput (host : GoString) (port : Option GoString)
    (segs : List GoString) (trail : Bool) : GoString :=
  authorityOf host port ++ pathOf segs trail

/-! ## Concrete instances used to witness theorems on concrete inputs -/

/-- A decode oracle that fails on `detail` extraction and answers fixed
values for the success decodings. -/
def codec0 : JSONCodec :=
  { detailOf := fun _ => none,
    healthOf := fun _ => some { Status := str "ok", Version := str "1.0.0" },
    extractOf := fun _ => some { Text := str "T", PageCount := 1,
                                 FileName := str "t.pdf", FileSize := 4 },
    gcsOf := fun _ => none }

/-- A detail oracle recognizing one concrete JSON error body. -/
def det1 : GoString → Option GoString := fun b =>
  if b = str "\x7b\"detail\":\"Blob does not exist\"\x7d" then some (str "Blob does not exist")
  else none

/-- A concrete environment: fixed 200 response, one readable file, fixed
multipart boundary. -/
def env0 : Env :=
  { codec := codec0,
    transport := fun _ _ => .ok { statusCode := 200, body := str "BODY" },
    fs := fun p => if p = str "/tmp/doc.pdf" then some (str "PDFDATA") else none,
    boundary := str "b123" }

/-- A concrete client value. -/
def client0 : Client :=
  { BaseURL := str "http://localhost:8000",
    HTTPClient := { timeout := 60 },
    UserAgent := str "Go-PyPDFToTextClient/1.0",
    Debug := false,
    Timeout := 120,
    APIKey := [] }

/-! ## Helper lemmas on the string model -/

theorem goStartsWith_iff (p : GoString) : ∀ s : GoString,
    goStartsWith s p = true ↔ ∃ r, s = p ++ r := by
  induction p with
  | nil =>
    intro s
    cases s <;> simp [goStartsWith]
  | cons d t ih =>
    intro s
    cases s with
    | nil => simp [goStartsWith]
    | cons c s' =>
      simp only [goStartsWith, Bool.and_eq_true, beq_iff_eq, ih, List.cons_append,
        List.cons.injEq]
      constructor
      · rintro ⟨rfl, r, rfl⟩
        exact ⟨r, rfl, rfl⟩
      · rintro ⟨r, rfl, rfl⟩
        exact ⟨rfl, r, rfl⟩

theorem goContains_iff (pat : GoString) : ∀ s : GoString,
    goContains s pat = true ↔ SubstringOf pat s := by
  intro s
  induction s with
  | nil =>
    simp only [goContains, goStartsWith_iff, SubstringOf]
    constructor
    · rintro ⟨r, h⟩
      exact ⟨[], r, by simpa using h⟩
    · rintro ⟨a, b, h⟩
      have h' : a ++ (pat ++ b) = [] := by simpa using h.symm
      rcases List.append_eq_nil.mp h' with ⟨rfl, h2⟩
      rcases List.append_eq_nil.mp h2 with ⟨rfl, rfl⟩
      exact ⟨[], rfl⟩
  | cons c t ih =>
    simp only [goContains, Bool.or_eq_true, goStartsWith_iff, ih, SubstringOf]
    constructor
    · rintro (⟨r, h⟩ | ⟨a, b, rfl⟩)
      · exact ⟨[], r, by simpa using h⟩
      · exact ⟨c :: a, b, rfl⟩
    · rintro ⟨a, b, h⟩
      cases a with
      | nil => exact Or.inl ⟨b, by simpa using h⟩
      | cons a0 a' =>
        rcases List.cons_eq_cons.mp h with ⟨rfl, h2⟩
        exact Or.inr ⟨a', b, h2⟩

/-! ## Claim theorems -/

/-- C2 (counterexample): the claim states every classifier is a conjunction
of its status code and a case-insensitive substring match.  The code computes
`IsTimeoutError` as a disjunction — status 408 with an empty detail already
satisfies it — and matches case-sensitively — `IsGCSPermissionError` rejects
an upper-cased "PERMISSION DENIED" that the claimed case-insensitive match
accepts. -/
theorem claim_C2_counterexample :
    ClientError.IsTimeoutError ⟨408, [], []⟩ = true
    ∧ specTimeoutClassifier ⟨408, [], []⟩ = false
    ∧ ClientError.IsGCSPermissionError ⟨403, [], str "PERMISSION DENIED"⟩ = false
    ∧ specPermissionClassifier ⟨403, [], str "PERMISSION DENIED"⟩ = true := by
  refine ⟨by decide, by decide, by decide, by decide⟩

/-- C2 (amended): the five classifiers as the code defines them.
`IsInvalidPDFError`, `IsGCSPermissionError` and `IsGCSNotFoundError` are
conjunctions of the status code (400, 403, 404) and a case-sensitive substring
match; `IsTimeoutError` and `IsFileSizeError` are disjunctions: status 408 OR
detail containing "timed out", status 413 OR detail containing
"File too large" (both case-sensitive). -/
theorem claim_C2_amended (e : ClientError) :
    (e.IsInvalidPDFError = true ↔ e.StatusCode = 400 ∧
      (SubstringOf (str "PDF file has syntax errors") e.Detail ∨
       SubstringOf (str "PDF file appears to be corrupted") e.Detail ∨
       SubstringOf (str "PDF file is incomplete or truncated") e.Detail ∨
       SubstringOf (str "Invalid PDF format") e.Detail ∨
       SubstringOf (str "file does not appear to be a valid PDF") e.Detail))
    ∧ (e.IsTimeoutError = true ↔ e.StatusCode = 408 ∨ SubstringOf (str "timed out") e.Detail)
    ∧ (e.IsFileSizeError = true ↔ e.StatusCode = 413 ∨ SubstringOf (str "File too large") e.Detail)
    ∧ (e.IsGCSPermissionError = true ↔ e.StatusCode = 403 ∧ SubstringOf (str "Permission denied") e.Detail)
    ∧ (e.IsGCSNotFoundError = true ↔ e.StatusCode = 404 ∧
        (SubstringOf (str "not found") e.Detail ∨ SubstringOf (str "does not exist") e.Detail)) := by
  simp only [ClientError.IsInvalidPDFError, ClientError.IsTimeoutError,
    ClientError.IsFileSizeError, ClientError.IsGCSPermissionError,
    ClientError.IsGCSNotFoundError, Bool.and_eq_true, Bool.or_eq_true, beq_iff_eq,
    goContains_iff]
  tauto

/-- C10: `ClientError.Error` renders "API error (HTTP status): message - detail"
when the detail is non-empty and "API error (HTTP status): message" when the
detail is empty. -/
theorem claim_C10 (e : ClientError) :
    (e.Detail ≠ [] →
      e.Error = str "API error (HTTP " ++ intToStr e.StatusCode ++ str "): "
        ++ e.Message ++ str " - " ++ e.Detail)
    ∧ (e.Detail = [] →
      e.Error = str "API error (HTTP " ++ intToStr e.StatusCode ++ str "): " ++ e.Message) := by
  constructor
  · intro h
    simp [ClientError.Error, h]
  · intro h
    simp [ClientError.Error, h]

/-- C10 (witness): both branches at concrete errors. -/
theorem claim_C10_witness :
    ClientError.Error ⟨404, str "body", str "Blob does not exist"⟩
      = str "API error (HTTP " ++ intToStr 404 ++ str "): " ++ str "body"
        ++ str " - " ++ str "Blob does not exist"
    ∧ ClientError.Error ⟨500, str "boom", []⟩
      = str "API error (HTTP " ++ intToStr 500 ++ str "): " ++ str "boom" :=
  ⟨(claim_C10 ⟨404, str "body", str "Blob does not exist"⟩).1 (by decide),
   (claim_C10 ⟨500, str "boom", []⟩).2 (by decide)⟩

/-- C1 (counterexample): a paginated body whose `page_count` field is 2 while
it carries a single page fragment decodes successfully, and the decoded
`page_count` differs from the number of fragments — the client copies the
field and does not enforce the claimed equality. -/
theorem claim_C1_counterexample :
    (decodeExtractionBody (.paginated [⟨1, str "A"⟩] 2 (str "t.pdf") 10)).pageCount
      ≠ Int.ofNat (decodeExtractionBody
          (.paginated [⟨1, str "A"⟩] 2 (str "t.pdf") 10)).pages.length := by
  decide

/-- C1 (amended): for every decoded extraction response, the full-text
accessor joins the page texts in order with the two-character separator
"\n\n" when the page list is non-empty (pages [a, b] give exactly
a ++ "\n\n" ++ b) and returns the flat text verbatim otherwise; the decoded
`page_count` equals the `page_count` field of the body, which the client
does not validate against the number of fragments — they agree exactly when
the server reports the count accurately. -/
theorem claim_C1_amended (t : GoString) (ps : List PageText) (pc : Int)
    (fn : GoString) (fsz : Int) :
    (decodeExtractionBody (.flat t pc fn fsz)).GetFullText = t
    ∧ (decodeExtractionBody (.paginated ps pc fn fsz)).pages = ps
    ∧ (decodeExtractionBody (.paginated ps pc fn fsz)).pageCount = pc
    ∧ (ps ≠ [] → (decodeExtractionBody (.paginated ps pc fn fsz)).GetFullText
        = joinStrings (str "\n\n") (ps.map PageText.text))
    ∧ (∀ a b : GoString, joinStrings (str "\n\n") [a, b] = a ++ str "\n\n" ++ b)
    ∧ (pc = Int.ofNat ps.length →
        (decodeExtractionBody (.paginated ps pc fn fsz)).pageCount
          = Int.ofNat (decodeExtractionBody (.paginated ps pc fn fsz)).pages.length) := by
  refine ⟨?_, rfl, rfl, ?_, ?_, ?_⟩
  · simp [decodeExtractionBody, ExtractionResult.GetFullText]
  · intro h
    simp [decodeExtractionBody, ExtractionResult.GetFullText, h]
  · intro a b
    simp [joinStrings]
  · intro h
    simpa [decodeExtractionBody] using h

/-- C1 (witness): two pages "A", "B" decode to full text "A\n\nB", and an
accurate page count is preserved. -/
theorem claim_C1_witness :
    (decodeExtractionBody (.paginated [⟨1, str "A"⟩, ⟨2, str "B"⟩] 2 (str "x.pdf") 7)).GetFullText
      = str "A\n\nB"
    ∧ (decodeExtractionBody (.paginated [⟨1, str "A"⟩, ⟨2, str "B"⟩] 2 (str "x.pdf") 7)).pageCount
      = Int.ofNat (decodeExtractionBody
          (.paginated [⟨1, str "A"⟩, ⟨2, str "B"⟩] 2 (str "x.pdf") 7)).pages.length := by
  constructor
  · have h := (claim_C1_amended [] [⟨1, str "A"⟩, ⟨2, str "B"⟩] 2 (str "x.pdf") 7).2.2.2.1
      (by decide)
    rw [h]
    decide
  · exact (claim_C1_amended [] [⟨1, str "A"⟩, ⟨2, str "B"⟩] 2 (str "x.pdf") 7).2.2.2.2.2
      (by decide)

/-- C3 (counterexample): the claim says a call errors exactly when the status
is outside the 2xx range.  The code compares against 200 only: a 201 response
with a decodable body is turned into a `ClientError` although 201 lies inside
2xx, so the claimed equivalence fails at this input. -/
theorem claim_C3_counterexample :
    ¬ (isAPIError (handleAPIResponse (fun _ => none) codec0.healthOf
          { statusCode := 201, body := str "created" }) = true
        ↔ ((201 : Int) < 200 ∨ 299 < (201 : Int))) := by
  decide

/-- C3 (amended): for every received HTTP response, the shared handler (used
verbatim by HealthCheck, ExtractTextFromReader and ExtractTextFromGCS)
returns a `ClientError` instead of a result exactly when the status code is
not 200; that error carries the status code, the raw body text as message,
and a detail equal to the JSON `detail` field of the body when it decodes to
a non-empty string and empty otherwise (decode failure tolerated silently). -/
theorem claim_C3_amended {α : Type} (detailOf : GoString → Option GoString)
    (decode : GoString → Option α) (resp : HTTPResponse) :
    (isAPIError (handleAPIResponse detailOf decode resp) = true ↔ resp.statusCode ≠ 200)
    ∧ (resp.statusCode ≠ 200 →
        handleAPIResponse detailOf decode resp
          = .error (.api { StatusCode := resp.statusCode, Message := resp.body,
                           Detail := extractDetail detailOf resp.body }))
    ∧ (∀ d, detailOf resp.body = some d → d ≠ [] → extractDetail detailOf resp.body = d)
    ∧ (detailOf resp.body = none → extractDetail detailOf resp.body = [])
    ∧ (detailOf resp.body = some [] → extractDetail detailOf resp.body = []) := by
  refine ⟨?_, ?_, ?_, ?_, ?_⟩
  · by_cases h : resp.statusCode = 200
    · simp only [handleAPIResponse, h]
      cases decode resp.body <;> simp [isAPIError]
    · simp [handleAPIResponse, h, isAPIError]
  · intro h
    simp [handleAPIResponse, h]
  · intro d hd hne
    simp [extractDetail, hd, hne]
  · intro hd
    simp [extractDetail, hd]
  · intro hd
    simp [extractDetail, hd]

/-- C3 (witness): a 404 response with a JSON detail body produces exactly the
`ClientError` with raw body as message and the extracted detail. -/
theorem claim_C3_witness :
    handleAPIResponse det1 codec0.healthOf
        { statusCode := 404, body := str "\x7b\"detail\":\"Blob does not exist\"\x7d" }
      = .error (.api { StatusCode := 404,
                       Message := str "\x7b\"detail\":\"Blob does not exist\"\x7d",
                       Detail := str "Blob does not exist" }) := by
  have h1 := (claim_C3_amended det1 codec0.healthOf
      { statusCode := 404, body := str "\x7b\"detail\":\"Blob does not exist\"\x7d" }).2.1
      (by decide)
  have h2 := (claim_C3_amended det1 codec0.healthOf
      { statusCode := 404, body := str "\x7b\"detail\":\"Blob does not exist\"\x7d" }).2.2.1
      (str "Blob does not exist") (by decide) (by decide)
  rw [h1, h2]

/-- C5 (code_bug evidence): the `Timeout` field set by `WithTimeout` is read
by no method — every method result and the time budget handed to the
transport are invariant under changing it — and for a client built with
`WithTimeout 5` the budget of a call whose context has no deadline is the
60-second default of the embedded `http.Client`, not the configured 5. -/
theorem claim_C5_code_bug :
    (∀ (c : Client) (t : Int) (env : Env) (ctx : Ctx) (reader fileName filePath : GoString)
        (r : GCSExtractionRequest),
      requestBudget { c with Timeout := t } ctx = requestBudget c ctx
      ∧ Client.HealthCheck { c with Timeout := t } env ctx = Client.HealthCheck c env ctx
      ∧ Client.ExtractTextFromReader { c with Timeout := t } env ctx reader fileName
          = Client.ExtractTextFromReader c env ctx reader fileName
      ∧ Client.ExtractTextFromBytes { c with Timeout := t } env ctx reader fileName
          = Client.ExtractTextFromBytes c env ctx reader fileName
      ∧ Client.ExtractTextFromFile { c with Timeout := t } env ctx filePath
          = Client.ExtractTextFromFile c env ctx filePath
      ∧ Client.ExtractTextFromGCS { c with Timeout := t } env ctx r
          = Client.ExtractTextFromGCS c env ctx r)
    ∧ (NewClient (str "localhost:8000") [WithTimeout 5]).toOption.map
        (fun c => (requestBudget c { deadline := none }, c.Timeout)) = some (some 60, 5) := by
  constructor
  · intro c t env ctx reader fileName filePath r
    exact ⟨rfl, rfl, rfl, rfl, rfl, rfl⟩
  · decide

/-- C8: toggling only the debug flag leaves the result (and error) component
of every method unchanged — debug output is the only difference. -/
theorem claim_C8 (c : Client) (d : Bool) (env : Env) (ctx : Ctx)
    (reader fileName filePath : GoString) (r : GCSExtractionRequest) :
    (Client.HealthCheck { c with Debug := d } env ctx).1 = (Client.HealthCheck c env ctx).1
    ∧ (Client.ExtractTextFromReader { c with Debug := d } env ctx reader fileName).1
        = (Client.ExtractTextFromReader c env ctx reader fileName).1
    ∧ (Client.ExtractTextFromBytes { c with Debug := d } env ctx reader fileName).1
        = (Client.ExtractTextFromBytes c env ctx reader fileName).1
    ∧ (Client.ExtractTextFromFile { c with Debug := d } env ctx filePath).1
        = (Client.ExtractTextFromFile c env ctx filePath).1
    ∧ (Client.ExtractTextFromGCS { c with Debug := d } env ctx r).1
        = (Client.ExtractTextFromGCS c env ctx r).1 := by
  refine ⟨rfl, rfl, rfl, ?_, rfl⟩
  simp only [Client.ExtractTextFromFile]
  cases env.fs filePath <;> rfl

/-- C7: `ExtractTextFromBytes` returns exactly what `ExtractTextFromReader`
returns on the same content and name, and `ExtractTextFromFile` on a readable
path returns exactly what `ExtractTextFromReader` returns on the file content
and the base name of the path. -/
theorem claim_C7 (c : Client) (env : Env) (ctx : Ctx)
    (content fileName filePath : GoString) :
    Client.ExtractTextFromBytes c env ctx content fileName
      = Client.ExtractTextFromReader c env ctx content fileName
    ∧ (∀ fileContent, env.fs filePath = some fileContent →
        Client.ExtractTextFromFile c env ctx filePath
          = Client.ExtractTextFromReader c env ctx fileContent (filepathBase filePath)) := by
  refine ⟨rfl, fun fc h => ?_⟩
  simp only [Client.ExtractTextFromFile, h]

/-- C7 (witness): the file delegation at a concrete readable path. -/
theorem claim_C7_witness :
    Client.ExtractTextFromFile client0 env0 { deadline := none } (str "/tmp/doc.pdf")
      = Client.ExtractTextFromReader client0 env0 { deadline := none } (str "PDFDATA")
          (filepathBase (str "/tmp/doc.pdf")) :=
  (claim_C7 client0 env0 { deadline := none } [] [] (str "/tmp/doc.pdf")).2
    (str "PDFDATA") (by decide)

/-- C6: in the serialized GCS request, the `method` key maps to "auto" when
the request method was empty and to the given method otherwise, and the
`output_gcs_url` and `project_id` keys are entirely absent whenever the
corresponding optional fields are unset. -/
theorem claim_C6 (r : GCSExtractionRequest) :
    fieldLookup (str "method") (gcsRequestFields (gcsDefaultMethod r))
      = some (if r.Method = [] then str "auto" else r.Method)
    ∧ (r.OutputGCSURL = none →
        ¬ str "output_gcs_url" ∈ fieldKeys (gcsRequestFields (gcsDefaultMethod r)))
    ∧ (r.ProjectID = none →
        ¬ str "project_id" ∈ fieldKeys (gcsRequestFields (gcsDefaultMethod r))) := by
  obtain ⟨i, o, m, p⟩ := r
  by_cases hm : m = []
  · subst hm
    cases o <;> cases p <;>
      simp [gcsDefaultMethod, gcsRequestFields, fieldLookup, fieldKeys, str]
  · cases o <;> cases p <;>
      simp [gcsDefaultMethod, gcsRequestFields, fieldLookup, fieldKeys, hm, str]

/-- C6 (witness): with both optional fields unset and an empty method, the
body carries method "auto" and neither optional key. -/
theorem claim_C6_witness :
    fieldLookup (str "method")
        (gcsRequestFields (gcsDefaultMethod
          { InputGCSURL := str "gs://b/f", OutputGCSURL := none, Method := [], ProjectID := none }))
      = some (str "auto")
    ∧ ¬ str "output_gcs_url" ∈ fieldKeys (gcsRequestFields (gcsDefaultMethod
          { InputGCSURL := str "gs://b/f", OutputGCSURL := none, Method := [], ProjectID := none }))
    ∧ ¬ str "project_id" ∈ fieldKeys (gcsRequestFields (gcsDefaultMethod
          { InputGCSURL := str "gs://b/f", OutputGCSURL := none, Method := [], ProjectID := none })) :=
  ⟨by
    have h := (claim_C6 { InputGCSURL := str "gs://b/f", OutputGCSURL := none,
                          Method := [], ProjectID := none }).1
    simpa using h,
   (claim_C6 { InputGCSURL := str "gs://b/f", OutputGCSURL := none,
               Method := [], ProjectID := none }).2.1 rfl,
   (claim_C6 { InputGCSURL := str "gs://b/f", OutputGCSURL := none,
               Method := [], ProjectID := none }).2.2 rfl⟩

/-- C9: the defaulting of `ExtractTextFromGCS` happens on a local copy that
replaces only an empty method: a non-empty method — even outside the known
enumeration — leaves the request untouched and is serialized verbatim, and
all other fields are serialized exactly as given. -/
theorem claim_C9 (r : GCSExtractionRequest) :
    (r.Method ≠ [] → gcsDefaultMethod r = r)
    ∧ (gcsDefaultMethod r).InputGCSURL = r.InputGCSURL
    ∧ (gcsDefaultMethod r).OutputGCSURL = r.OutputGCSURL
    ∧ (gcsDefaultMethod r).ProjectID = r.ProjectID
    ∧ (r.Method = [] → (gcsDefaultMethod r).Method = str "auto")
    ∧ (r.Method ≠ [] →
        fieldLookup (str "method") (gcsRequestFields (gcsDefaultMethod r)) = some r.Method) := by
  refine ⟨?_, ?_, ?_, ?_, ?_, ?_⟩
  · intro h
    simp [gcsDefaultMethod, h]
  · by_cases h : r.Method = [] <;> simp [gcsDefaultMethod, h]
  · by_cases h : r.Method = [] <;> simp [gcsDefaultMethod, h]
  · by_cases h : r.Method = [] <;> simp [gcsDefaultMethod, h]
  · intro h
    simp [gcsDefaultMethod, h]
  · intro h
    obtain ⟨i, o, m, p⟩ := r
    simp only [gcsDefaultMethod] at h ⊢
    simp only [if_neg h]
    cases o <;> cases p <;> simp [gcsRequestFields, fieldLookup, if_neg h, str]

/-- C9 (witness): a method outside the enumeration ("bogus") passes through
unmodified and is serialized verbatim. -/
theorem claim_C9_witness :
    gcsDefaultMethod { InputGCSURL := str "gs://b/f", OutputGCSURL := none,
                       Method := str "bogus", ProjectID := none }
      = { InputGCSURL := str "gs://b/f", OutputGCSURL := none,
          Method := str "bogus", ProjectID := none }
    ∧ fieldLookup (str "method") (gcsRequestFields (gcsDefaultMethod
        { InputGCSURL := str "gs://b/f", OutputGCSURL := none,
          Method := str "bogus", ProjectID := none }))
      = some (str "bogus") :=
  ⟨(claim_C9 { InputGCSURL := str "gs://b/f", OutputGCSURL := none,
               Method := str "bogus", ProjectID := none }).1 (by decide),
   (claim_C9 { InputGCSURL := str "gs://b/f", OutputGCSURL := none,
               Method := str "bogus", ProjectID := none }).2.2.2.2.2 (by decide)⟩

/-- C2 (witness): the amended characterization at concrete errors — a 404
with "Blob does not exist" detail satisfies the not-found classifier, and a
403 with unrelated detail fails the permission classifier. -/
theorem claim_C2_witness :
    ClientError.IsGCSNotFoundError ⟨404, [], str "Blob does not exist: gs://b/f"⟩ = true
    ∧ ClientError.IsGCSPermissionError ⟨403, [], str "unrelated"⟩ = false := by
  constructor
  · exact (claim_C2_amended ⟨404, [], str "Blob does not exist: gs://b/f"⟩).2.2.2.2.mpr
      ⟨rfl, Or.inr ⟨str "Blob ", str ": gs://b/f", by decide⟩⟩
  · have h := (claim_C2_amended ⟨403, [], str "unrelated"⟩).2.2.2.1
    by_contra hb
    rcases h.mp (by simpa using hb) with ⟨_, a, b, hab⟩
    have hab' : str "unrelated" = a ++ (str "Permission denied" ++ b) := by simpa using hab
    have hl := congrArg List.length hab'
    rw [List.length_append, List.length_append] at hl
    have h9 : (str "unrelated").length = 9 := rfl
    have h17 : (str "Permission denied").length = 17 := rfl
    rw [h9, h17] at hl
    omega

set_option maxHeartbeats 1600000 in
/-- C4 (counterexample): the empty string contains no "://" and is accepted
by `NewClient` (Go parses "http://" successfully), but the stored base URL is
"http:" — `URL.String` omits the "//" when host and path are empty — and not
"http://" plus the input with a trailing slash removed. -/
theorem claim_C4_counterexample :
    newClientBaseURL [] = some (str "http:")
    ∧ str "http:" ≠ str "http://" ++ goTrimSuffix [] (str "/") := by
  constructor
  · decide
  · decide

/-! ## Character-class lemmas for the normalization proof -/

theorem charPred_ne {p : Char → Bool} {c d : Char} (h : p c = true)
    (hd : p d = false) : c ≠ d := by
  intro he
  rw [he, hd] at h
  cases h

theorem isAlphaNumByte_printable {c : Char} (h : NetURL.isAlphaNumByte c = true) :
    32 ≤ c.toNat ∧ c.toNat ≠ 127 := by
  simp only [NetURL.isAlphaNumByte, Bool.or_eq_true, Bool.and_eq_true,
    decide_eq_true_eq] at h
  rcases h with (h | h) | h <;> omega

theorem hostChar_shouldEscape {c : Char} (h : hostChar c = true) :
    NetURL.shouldEscape c NetURL.Encoding.host = false := by
  simp only [hostChar, Bool.or_eq_true, decide_eq_true_eq] at h
  rcases h with (h | h) | h
  · simp [NetURL.shouldEscape, h]
  · subst h; decide
  · subst h; decide

theorem segChar_shouldEscape {c : Char} (h : segChar c = true) :
    NetURL.shouldEscape c NetURL.Encoding.path = false := by
  simp only [segChar, Bool.or_eq_true, decide_eq_true_eq] at h
  rcases h with (((((((((((h | h) | h) | h) | h) | h) | h) | h) | h) | h) | h) | h)
  · simp [NetURL.shouldEscape, h]
  all_goals (subst h; decide)

theorem isDigitByte_shouldEscape {c : Char} (h : isDigitByte c = true) :
    NetURL.shouldEscape c NetURL.Encoding.host = false := by
  simp only [isDigitByte, Bool.and_eq_true, decide_eq_true_eq] at h
  have ha : NetURL.isAlphaNumByte c = true := by
    simp only [NetURL.isAlphaNumByte, Bool.or_eq_true, Bool.and_eq_true, decide_eq_true_eq]
    right
    omega
  simp [NetURL.shouldEscape, ha]

theorem hostChar_printable {c : Char} (h : hostChar c = true) :
    32 ≤ c.toNat ∧ c.toNat ≠ 127 := by
  simp only [hostChar, Bool.or_eq_true, decide_eq_true_eq] at h
  rcases h with (h | h) | h
  · exact isAlphaNumByte_printable h
  · subst h; decide
  · subst h; decide

theorem segChar_printable {c : Char} (h : segChar c = true) :
    32 ≤ c.toNat ∧ c.toNat ≠ 127 := by
  simp only [segChar, Bool.or_eq_true, decide_eq_true_eq] at h
  rcases h with (((((((((((h | h) | h) | h) | h) | h) | h) | h) | h) | h) | h) | h)
  · exact isAlphaNumByte_printable h
  all_goals (subst h; decide)

theorem isDigitByte_printable {c : Char} (h : isDigitByte c = true) :
    32 ≤ c.toNat ∧ c.toNat ≠ 127 := by
  simp only [isDigitByte, Bool.and_eq_true, decide_eq_true_eq] at h
  omega

theorem lowerAlpha_printable {c : Char} (h : lowerAlpha c = true) :
    32 ≤ c.toNat ∧ c.toNat ≠ 127 := by
  simp only [lowerAlpha, Bool.and_eq_true, decide_eq_true_eq] at h
  omega

theorem asciiLower_id {c : Char} (h : lowerAlpha c = true) : asciiLower c = c := by
  simp only [lowerAlpha, Bool.and_eq_true, decide_eq_true_eq] at h
  rw [asciiLower, if_neg]
  simp only [Bool.and_eq_true, decide_eq_true_eq, not_and]
  omega

theorem goToLower_id {s : GoString} (h : ∀ c ∈ s, lowerAlpha c = true) :
    goToLower s = s := by
  induction s with
  | nil => rfl
  | cons c t ih =>
    simp only [goToLower, List.map_cons]
    rw [asciiLower_id (h c (by simp))]
    have ht := ih fun d hd => h d (by simp [hd])
    simp only [goToLower] at ht
    rw [ht]

/-! ## Splitting and trimming lemmas for the string model -/

theorem str_sep : str "://" = [':', '/', '/'] := rfl

theorem str_slash : str "/" = ['/'] := rfl

theorem str_2slash : str "//" = ['/', '/'] := rfl

theorem str_qmark : str "?" = ['?'] := rfl

theorem str_lbracket : str "[" = ['['] := rfl

theorem cutChar_not_mem {ch : Char} : ∀ {s : GoString},
    (∀ x ∈ s, x ≠ ch) → cutChar ch s = (s, none) := by
  intro s
  induction s with
  | nil => intro _; rfl
  | cons c t ih =>
    intro h
    simp only [cutChar]
    rw [if_neg (h c (by simp)), ih fun x hx => h x (by simp [hx])]

theorem cutChar_append {ch : Char} : ∀ {a : GoString} (b : GoString),
    (∀ x ∈ a, x ≠ ch) → cutChar ch (a ++ ch :: b) = (a, some b) := by
  intro a
  induction a with
  | nil =>
    intro b _
    simp [cutChar]
  | cons c a' ih =>
    intro b h
    simp only [List.cons_append, cutChar, List.append_eq]
    rw [if_neg (h c (by simp)), ih b fun x hx => h x (by simp [hx])]

theorem cutLastChar_not_mem {ch : Char} {s : GoString}
    (h : ∀ x ∈ s, x ≠ ch) : cutLastChar ch s = none := by
  rw [cutLastChar, cutChar_not_mem fun x hx => h x (List.mem_reverse.mp hx)]

theorem cutLastChar_append {ch : Char} {a b : GoString}
    (hb : ∀ x ∈ b, x ≠ ch) :
    cutLastChar ch (a ++ ch :: b) = some (a, b) := by
  rw [cutLastChar]
  have hrev : (a ++ ch :: b).reverse = b.reverse ++ ch :: a.reverse := by
    simp
  rw [hrev, cutChar_append a.reverse fun x hx => hb x (List.mem_reverse.mp hx)]
  simp

theorem goStartsWith_single_ne {c d : Char} (t : GoString) (h : c ≠ d) :
    goStartsWith (c :: t) [d] = false := by
  simp [goStartsWith, h]

theorem goStartsWith_nil_ne {d : Char} : goStartsWith [] [d] = false := rfl

theorem goEndsWith_single_false {s : GoString} {ch : Char}
    (h : ∀ x ∈ s, x ≠ ch) : goEndsWith s [ch] = false := by
  rw [goEndsWith]
  cases hs : s.reverse with
  | nil => rfl
  | cons c t =>
    have hc : c ∈ s := List.mem_reverse.mp (by rw [hs]; simp)
    exact goStartsWith_single_ne t (h c hc)

theorem goTrimSuffix_not_mem {ch : Char} {s : GoString}
    (h : ∀ x ∈ s, x ≠ ch) : goTrimSuffix s [ch] = s := by
  rw [goTrimSuffix]
  cases hs : s.reverse with
  | nil => simp [goStartsWith]
  | cons c t =>
    have hc : c ∈ s := List.mem_reverse.mp (by rw [hs]; simp)
    rw [show ([ch] : GoString).reverse = [ch] from rfl,
      if_neg (by rw [goStartsWith_single_ne t (h c hc)]; simp)]

theorem goTrimSuffix_append_left {ch : Char} (a : GoString) {p : GoString}
    (hp : p ≠ []) : goTrimSuffix (a ++ p) [ch] = a ++ goTrimSuffix p [ch] := by
  rcases List.exists_cons_of_ne_nil (by
    intro h
    exact hp (by simpa using congrArg List.reverse h) : p.reverse ≠ []) with ⟨c, t, hct⟩
  have hp' : p = t.reverse ++ [c] := by
    have := congrArg List.reverse hct
    simpa using this
  rw [goTrimSuffix, goTrimSuffix]
  have hrev : (a ++ p).reverse = c :: (t ++ a.reverse) := by
    rw [hp']; simp
  rw [hrev, hct, show ([ch] : GoString).reverse = [ch] from rfl]
  by_cases hc : c = ch
  · subst hc
    rw [if_pos (by simp [goStartsWith]), if_pos (by simp [goStartsWith])]
    simp
  · rw [if_neg (by rw [goStartsWith_single_ne _ hc]; simp),
      if_neg (by rw [goStartsWith_single_ne _ hc]; simp)]

theorem goTrimSuffix_append_end {ch : Char} (a : GoString) :
    goTrimSuffix (a ++ [ch]) [ch] = a := by
  rw [goTrimSuffix]
  have hrev : (a ++ [ch]).reverse = ch :: a.reverse := by simp
  rw [hrev, show ([ch] : GoString).reverse = [ch] from rfl,
    if_pos (by simp [goStartsWith])]
  simp

/-! ## Escape, unescape and scheme lemmas -/

theorem escape_noop (mode : NetURL.Encoding) : ∀ {s : GoString},
    (∀ c ∈ s, NetURL.shouldEscape c mode = false) → NetURL.escape mode s = s := by
  intro s
  induction s with
  | nil => intro _; rfl
  | cons c t ih =>
    intro h
    simp only [NetURL.escape, List.flatMap_cons]
    rw [NetURL.escapeChar, if_neg (by rw [h c (by simp)]; simp)]
    have ht := ih fun d hd => h d (by simp [hd])
    simp only [NetURL.escape] at ht
    rw [ht]
    rfl

theorem unescape_noop (mode : NetURL.Encoding)
    (hm : mode ≠ NetURL.Encoding.queryComponent) : ∀ {s : GoString},
    (∀ c ∈ s, c ≠ '%' ∧ ((mode = NetURL.Encoding.host ∨ mode = NetURL.Encoding.zone) →
        NetURL.shouldEscape c mode = false)) →
    NetURL.unescape mode s = .ok s := by
  intro s
  induction s with
  | nil => intro _; rfl
  | cons c t ih =>
    intro h
    obtain ⟨hc1, hc2⟩ := h c (by simp)
    have ht := ih fun d hd => h d (by simp [hd])
    rw [NetURL.unescape.eq_def]
    simp only []
    rw [if_neg hc1]
    by_cases hplus : c = '+'
    · rw [if_pos hplus]
      simp only [ht]
      rw [if_neg hm, hplus]
    · rw [if_neg hplus, if_neg (by
        intro hb
        simp only [Bool.and_eq_true, Bool.or_eq_true, decide_eq_true_eq] at hb
        obtain ⟨⟨hmz, _⟩, hse⟩ := hb
        rw [hc2 hmz] at hse
        cases hse)]
      simp only [ht]

theorem getSchemeAux_step {c : Char} (h : lowerAlpha c = true)
    (acc t : GoString) :
    NetURL.getSchemeAux acc (c :: t) = NetURL.getSchemeAux (acc ++ [c]) t := by
  simp only [NetURL.getSchemeAux]
  rw [if_pos]
  simp only [lowerAlpha, Bool.and_eq_true, decide_eq_true_eq] at h
  simp only [Bool.or_eq_true, Bool.and_eq_true, decide_eq_true_eq]
  left
  exact h

theorem getSchemeAux_colon (acc rest : GoString) (h : acc ≠ []) :
    NetURL.getSchemeAux acc (':' :: rest) = NetURL.SchemeResult.found acc rest := by
  simp only [NetURL.getSchemeAux]
  rw [if_neg (by decide), if_neg (by decide), if_pos (by decide), if_neg h]

theorem getSchemeAux_lower : ∀ (sch : GoString) (acc rest : GoString),
    (∀ c ∈ sch, lowerAlpha c = true) → acc ++ sch ≠ [] →
    NetURL.getSchemeAux acc (sch ++ ':' :: rest)
      = NetURL.SchemeResult.found (acc ++ sch) rest := by
  intro sch
  induction sch with
  | nil =>
    intro acc rest _ hne
    rw [List.append_nil] at hne
    simp only [List.nil_append, List.append_nil]
    exact getSchemeAux_colon acc rest hne
  | cons c sch' ih =>
    intro acc rest h hne
    simp only [List.cons_append]
    rw [getSchemeAux_step (h c (by simp)) acc (sch' ++ ':' :: rest)]
    rw [ih (acc ++ [c]) rest (fun d hd => h d (by simp [hd])) (by simp)]
    simp

theorem getScheme_lower {sch : GoString} (rest : GoString)
    (hs : ∀ c ∈ sch, lowerAlpha c = true) (hne : sch ≠ []) :
    NetURL.getScheme (sch ++ ':' :: rest) = .ok (sch, rest) := by
  rw [NetURL.getScheme]
  rw [show NetURL.getSchemeAux [] (sch ++ ':' :: rest)
      = NetURL.SchemeResult.found ([] ++ sch) rest from
    getSchemeAux_lower sch [] rest hs (by simpa using hne)]
  simp

theorem containsCTLByte_false {s : GoString}
    (h : ∀ c ∈ s, 32 ≤ c.toNat ∧ c.toNat ≠ 127) :
    NetURL.containsCTLByte s = false := by
  rw [NetURL.containsCTLByte]
  rw [List.any_eq_false]
  intro c hc
  obtain ⟨h1, h2⟩ := h c hc
  simp only [Bool.or_eq_true, decide_eq_true_eq, not_or]
  omega

/-! ## Classification of the characters of well-formed inputs -/

theorem mem_pathOf {segs : List GoString} {trail : Bool} {c : Char}
    (h : c ∈ pathOf segs trail) : c = '/' ∨ ∃ s ∈ segs, c ∈ s := by
  simp only [pathOf, List.mem_append, List.mem_flatMap] at h
  rcases h with ⟨s, hs, hc⟩ | h
  · rcases List.mem_cons.mp hc with rfl | hc
    · exact Or.inl rfl
    · exact Or.inr ⟨s, hs, hc⟩
  · cases trail with
    | true => simp at h; exact Or.inl h
    | false => simp at h

theorem mem_authorityOf {host : GoString} {port : Option GoString} {c : Char}
    (h : c ∈ authorityOf host port) :
    c ∈ host ∨ c = ':' ∨ ∃ p, port = some p ∧ c ∈ p := by
  simp only [authorityOf, List.mem_append] at h
  rcases h with h | h
  · exact Or.inl h
  · cases port with
    | none => simp at h
    | some p =>
      rcases List.mem_cons.mp h with rfl | h
      · exact Or.inr (Or.inl rfl)
      · exact Or.inr (Or.inr ⟨p, rfl, h⟩)

theorem simpleInput_avoid {host : GoString} {port : Option GoString}
    {segs : List GoString} {trail : Bool}
    (hh2 : ∀ c ∈ host, hostChar c = true)
    (hp : ∀ p, port = some p → ∀ c ∈ p, isDigitByte c = true)
    (hsegs : ∀ s ∈ segs, ∀ c ∈ s, segChar c = true)
    {d : Char} (h1 : hostChar d = false) (h2 : isDigitByte d = false)
    (h3 : segChar d = false) (h4 : d ≠ ':') (h5 : d ≠ '/') :
    ∀ x ∈ simpleInput host port segs trail, x ≠ d := by
  intro x hx
  simp only [simpleInput, List.mem_append] at hx
  rcases hx with hx | hx
  · rcases mem_authorityOf hx with hx | rfl | ⟨p, hep, hxp⟩
    · exact charPred_ne (hh2 x hx) h1
    · exact fun he => h4 he.symm
    · exact charPred_ne (hp p hep x hxp) h2
  · rcases mem_pathOf hx with rfl | ⟨s, hs, hxs⟩
    · exact fun he => h5 he.symm
    · exact charPred_ne (hsegs s hs x hxs) h3

theorem simpleInput_printable {host : GoString} {port : Option GoString}
    {segs : List GoString} {trail : Bool}
    (hh2 : ∀ c ∈ host, hostChar c = true)
    (hp : ∀ p, port = some p → ∀ c ∈ p, isDigitByte c = true)
    (hsegs : ∀ s ∈ segs, ∀ c ∈ s, segChar c = true) :
    ∀ x ∈ simpleInput host port segs trail, 32 ≤ x.toNat ∧ x.toNat ≠ 127 := by
  intro x hx
  simp only [simpleInput, List.mem_append] at hx
  rcases hx with hx | hx
  · rcases mem_authorityOf hx with hx | rfl | ⟨p, hep, hxp⟩
    · exact hostChar_printable (hh2 x hx)
    · decide
    · exact isDigitByte_printable (hp p hep x hxp)
  · rcases mem_pathOf hx with rfl | ⟨s, hs, hxs⟩
    · decide
    · exact segChar_printable (hsegs s hs x hxs)

theorem simpleInput_no_colon {host : GoString} {segs : List GoString} {trail : Bool}
    (hh2 : ∀ c ∈ host, hostChar c = true)
    (hsegs : ∀ s ∈ segs, ∀ c ∈ s, segChar c = true) :
    ∀ x ∈ simpleInput host none segs trail, x ≠ ':' := by
  intro x hx
  simp only [simpleInput, List.mem_append] at hx
  rcases hx with hx | hx
  · have hx' : x ∈ host := by simpa [authorityOf] using hx
    exact charPred_ne (hh2 x hx') (by decide)
  · rcases mem_pathOf hx with rfl | ⟨s, hs, hxs⟩
    · decide
    · exact charPred_ne (hsegs s hs x hxs) (by decide)

theorem split_unique {ch : Char} : ∀ (x1 a y1 b : GoString),
    (∀ x ∈ x1, x ≠ ch) → (∀ x ∈ y1, x ≠ ch) →
    x1 ++ ch :: y1 = a ++ ch :: b → x1 = a ∧ y1 = b := by
  intro x1
  induction x1 with
  | nil =>
    intro a y1 b _ hy h
    cases a with
    | nil => simpa using h
    | cons a0 a' =>
      simp only [List.nil_append, List.cons_append, List.cons.injEq] at h
      obtain ⟨rfl, h2⟩ := h
      exact absurd rfl (hy ch (by rw [h2]; simp))
  | cons c x1' ih =>
    intro a y1 b hx hy h
    cases a with
    | nil =>
      simp only [List.cons_append, List.nil_append, List.cons.injEq] at h
      exact absurd h.1 (hx c (by simp))
    | cons a0 a' =>
      simp only [List.cons_append, List.cons.injEq] at h
      obtain ⟨rfl, h2⟩ := h
      obtain ⟨h3, h4⟩ := ih a' y1 b (fun x hx' => hx x (by simp [hx'])) hy h2
      exact ⟨by rw [h3], h4⟩

theorem goContains_of_split {s pat : GoString} (a b : GoString)
    (h : s = a ++ pat ++ b) : goContains s pat = true :=
  (goContains_iff pat s).mpr ⟨a, b, h⟩

theorem simpleInput_no_scheme_sep {host : GoString} {port : Option GoString}
    {segs : List GoString} {trail : Bool}
    (hh2 : ∀ c ∈ host, hostChar c = true)
    (hp : ∀ p, port = some p → p ≠ [] ∧ ∀ c ∈ p, isDigitByte c = true)
    (hsegs : ∀ s ∈ segs, ∀ c ∈ s, segChar c = true) :
    goContains (simpleInput host port segs trail) (str "://") = false := by
  by_contra hb
  rw [Bool.not_eq_false] at hb
  rcases (goContains_iff _ _).mp hb with ⟨a, b, hab⟩
  rw [str_sep] at hab
  have hab' : simpleInput host port segs trail = a ++ ':' :: ('/' :: '/' :: b) := by
    rw [hab]; simp
  cases port with
  | none =>
    have hmem : (':' : Char) ∈ simpleInput host none segs trail := by
      rw [hab']; simp
    exact simpleInput_no_colon hh2 hsegs ':' hmem rfl
  | some p =>
    obtain ⟨hpne, hpd⟩ := hp p rfl
    have hin : simpleInput host (some p) segs trail
        = host ++ ':' :: (p ++ pathOf segs trail) := by
      simp [simpleInput, authorityOf]
    rw [hin] at hab'
    have hyno : ∀ x ∈ p ++ pathOf segs trail, x ≠ ':' := by
      intro x hx
      rcases List.mem_append.mp hx with hx | hx
      · exact charPred_ne (hpd x hx) (by decide)
      · rcases mem_pathOf hx with rfl | ⟨s, hs, hxs⟩
        · decide
        · exact charPred_ne (hsegs s hs x hxs) (by decide)
    have hhno : ∀ x ∈ host, x ≠ ':' := fun x hx =>
      charPred_ne (hh2 x hx) (by decide)
    obtain ⟨_, h2⟩ := split_unique host a (p ++ pathOf segs trail) ('/' :: '/' :: b)
      hhno hyno hab'
    cases p with
    | nil => exact hpne rfl
    | cons p0 p' =>
      have : p0 = '/' := by
        have := congrArg (fun l => l.head?) h2
        simpa using this
      subst this
      exact absurd (hpd '/' (by simp)) (by decide)

theorem authorityOf_shouldEscape {host : GoString} {port : Option GoString}
    (hh2 : ∀ c ∈ host, hostChar c = true)
    (hp : ∀ p, port = some p → ∀ c ∈ p, isDigitByte c = true) :
    ∀ c ∈ authorityOf host port, NetURL.shouldEscape c NetURL.Encoding.host = false := by
  intro c hc
  rcases mem_authorityOf hc with hc | rfl | ⟨p, hep, hcp⟩
  · exact hostChar_shouldEscape (hh2 c hc)
  · decide
  · exact isDigitByte_shouldEscape (hp p hep c hcp)

theorem authorityOf_ne_percent {host : GoString} {port : Option GoString}
    (hh2 : ∀ c ∈ host, hostChar c = true)
    (hp : ∀ p, port = some p → ∀ c ∈ p, isDigitByte c = true) :
    ∀ c ∈ authorityOf host port, c ≠ '%' := by
  intro c hc
  rcases mem_authorityOf hc with hc | rfl | ⟨p, hep, hcp⟩
  · exact charPred_ne (hh2 c hc) (by decide)
  · decide
  · exact charPred_ne (hp p hep c hcp) (by decide)

theorem pathOf_shouldEscape {segs : List GoString} {trail : Bool}
    (hsegs : ∀ s ∈ segs, ∀ c ∈ s, segChar c = true) :
    ∀ c ∈ pathOf segs trail, NetURL.shouldEscape c NetURL.Encoding.path = false := by
  intro c hc
  rcases mem_pathOf hc with rfl | ⟨s, hs, hcs⟩
  · decide
  · exact segChar_shouldEscape (hsegs s hs c hcs)

theorem pathOf_ne_percent {segs : List GoString} {trail : Bool}
    (hsegs : ∀ s ∈ segs, ∀ c ∈ s, segChar c = true) :
    ∀ c ∈ pathOf segs trail, c ≠ '%' := by
  intro c hc
  rcases mem_pathOf hc with rfl | ⟨s, hs, hcs⟩
  · decide
  · exact charPred_ne (hsegs s hs c hcs) (by decide)

theorem pathOf_shape (segs : List GoString) (trail : Bool) :
    pathOf segs trail = [] ∨ ∃ p', pathOf segs trail = '/' :: p' := by
  cases segs with
  | nil =>
    cases trail with
    | false => exact Or.inl rfl
    | true => exact Or.inr ⟨[], rfl⟩
  | cons s segs' =>
    exact Or.inr ⟨s ++ (segs'.flatMap fun q => '/' :: q) ++
      (if trail then ['/'] else []), by simp [pathOf]⟩

theorem unescape_authority {host : GoString} {port : Option GoString}
    (hh2 : ∀ c ∈ host, hostChar c = true)
    (hp : ∀ p, port = some p → ∀ c ∈ p, isDigitByte c = true) :
    NetURL.unescape NetURL.Encoding.host (authorityOf host port)
      = .ok (authorityOf host port) :=
  unescape_noop NetURL.Encoding.host (by decide) fun c hc =>
    ⟨authorityOf_ne_percent hh2 hp c hc,
     fun _ => authorityOf_shouldEscape hh2 hp c hc⟩

theorem unescape_path {segs : List GoString} {trail : Bool}
    (hsegs : ∀ s ∈ segs, ∀ c ∈ s, segChar c = true) :
    NetURL.unescape NetURL.Encoding.path (pathOf segs trail)
      = .ok (pathOf segs trail) :=
  unescape_noop NetURL.Encoding.path (by decide) fun c hc =>
    ⟨pathOf_ne_percent hsegs c hc, fun hmz => by cases hmz <;> cases ‹_›⟩

theorem escape_path {segs : List GoString} {trail : Bool}
    (hsegs : ∀ s ∈ segs, ∀ c ∈ s, segChar c = true) :
    NetURL.escape NetURL.Encoding.path (pathOf segs trail) = pathOf segs trail :=
  escape_noop NetURL.Encoding.path (pathOf_shouldEscape hsegs)

theorem escape_authority {host : GoString} {port : Option GoString}
    (hh2 : ∀ c ∈ host, hostChar c = true)
    (hp : ∀ p, port = some p → ∀ c ∈ p, isDigitByte c = true) :
    NetURL.escape NetURL.Encoding.host (authorityOf host port) = authorityOf host port :=
  escape_noop NetURL.Encoding.host (authorityOf_shouldEscape hh2 hp)

theorem parseHost_simple {host : GoString} {port : Option GoString}
    (hh1 : host ≠ []) (hh2 : ∀ c ∈ host, hostChar c = true)
    (hp : ∀ p, port = some p → p ≠ [] ∧ ∀ c ∈ p, isDigitByte c = true) :
    NetURL.parseHost (authorityOf host port) = .ok (authorityOf host port) := by
  obtain ⟨h0, host', rfl⟩ := List.exists_cons_of_ne_nil hh1
  have hh0 : hostChar h0 = true := hh2 h0 (by simp)
  cases port with
  | none =>
    have heq : authorityOf (h0 :: host') none = h0 :: host' := by
      simp [authorityOf]
    have hbr : goStartsWith (h0 :: host') (str "[") = false := by
      rw [str_lbracket]
      exact goStartsWith_single_ne _ (charPred_ne hh0 (by decide))
    have hcl : cutLastChar ':' (h0 :: host') = none :=
      cutLastChar_not_mem fun x hx => charPred_ne (hh2 x hx) (by decide)
    have hun := @unescape_authority (h0 :: host') none hh2 (fun p hep => by cases hep)
    rw [heq] at hun
    rw [heq, NetURL.parseHost, if_neg (by rw [hbr]; simp), hcl]
    exact hun
  | some p =>
    obtain ⟨hpne, hpd⟩ := hp p rfl
    have heq : authorityOf (h0 :: host') (some p) = (h0 :: host') ++ ':' :: p := by
      simp [authorityOf]
    have hbr : goStartsWith ((h0 :: host') ++ ':' :: p) (str "[") = false := by
      rw [List.cons_append, str_lbracket]
      exact goStartsWith_single_ne _ (charPred_ne hh0 (by decide))
    have hcl : cutLastChar ':' ((h0 :: host') ++ ':' :: p) = some (h0 :: host', p) :=
      cutLastChar_append fun x hx => charPred_ne (hpd x hx) (by decide)
    have hvop : NetURL.validOptionalPort (':' :: p) = true := by
      rw [NetURL.validOptionalPort, List.all_eq_true]
      intro c hc
      exact hpd c hc
    have hun := @unescape_authority (h0 :: host') (some p) hh2 (fun q hq => by
      cases hq
      exact hpd)
    rw [heq] at hun
    rw [heq, NetURL.parseHost, if_neg (by rw [hbr]; simp)]
    simp only [hcl, hvop, Bool.not_true, Bool.false_eq_true, if_false]
    exact hun

theorem parseAuthority_simple {host : GoString} {port : Option GoString}
    (hh1 : host ≠ []) (hh2 : ∀ c ∈ host, hostChar c = true)
    (hp : ∀ p, port = some p → p ≠ [] ∧ ∀ c ∈ p, isDigitByte c = true) :
    NetURL.parseAuthority (authorityOf host port)
      = .ok (none, authorityOf host port) := by
  have hat : ∀ x ∈ authorityOf host port, x ≠ '@' := by
    intro x hx
    rcases mem_authorityOf hx with hx | rfl | ⟨p, hep, hxp⟩
    · exact charPred_ne (hh2 x hx) (by decide)
    · decide
    · exact charPred_ne ((hp p hep).2 x hxp) (by decide)
  rw [NetURL.parseAuthority, cutLastChar_not_mem hat, parseHost_simple hh1 hh2 hp]

theorem afterQuery_simple {sch host : GoString} {port : Option GoString}
    {segs : List GoString} {trail : Bool}
    (hsch : sch ≠ []) (hh1 : host ≠ []) (hh2 : ∀ c ∈ host, hostChar c = true)
    (hp : ∀ p, port = some p → p ≠ [] ∧ ∀ c ∈ p, isDigitByte c = true)
    (hsegs : ∀ s ∈ segs, ∀ c ∈ s, segChar c = true) :
    NetURL.afterQuery { NetURL.emptyURL with scheme := sch }
        ('/' :: '/' :: (authorityOf host port ++ pathOf segs trail))
      = .ok { NetURL.emptyURL with scheme := sch, host := authorityOf host port,
                                   path := pathOf segs trail } := by
  have hnoslash : ∀ x ∈ authorityOf host port, x ≠ '/' := by
    intro x hx
    rcases mem_authorityOf hx with hx | rfl | ⟨p, hep, hxp⟩
    · exact charPred_ne (hh2 x hx) (by decide)
    · decide
    · exact charPred_ne ((hp p hep).2 x hxp) (by decide)
  have hs1 : goStartsWith
      ('/' :: '/' :: (authorityOf host port ++ pathOf segs trail)) (str "/") = true := by
    rw [str_slash]; simp [goStartsWith]
  have hs2 : goStartsWith
      ('/' :: '/' :: (authorityOf host port ++ pathOf segs trail)) (str "//") = true := by
    rw [str_2slash]; simp [goStartsWith]
  have hd : decide (sch ≠ []) = true := decide_eq_true hsch
  have hpa := parseAuthority_simple hh1 hh2 hp
  rcases pathOf_shape segs trail with hps | ⟨p', hps⟩
  · have hcut : cutChar '/' (authorityOf host port ++ pathOf segs trail)
        = (authorityOf host port, none) := by
      rw [hps, List.append_nil]
      exact cutChar_not_mem hnoslash
    simp only [NetURL.afterQuery, hs1, hs2, hd, Bool.not_true, Bool.false_eq_true,
      if_false, Bool.true_or, Bool.true_and, if_true, List.drop_succ_cons,
      List.drop_zero, hcut, hpa, NetURL.setPath, NetURL.unescape, NetURL.escape,
      List.flatMap_nil]
    rw [hps]
    rfl
  · have hcut : cutChar '/' (authorityOf host port ++ pathOf segs trail)
        = (authorityOf host port, some p') := by
      rw [hps]
      exact cutChar_append p' hnoslash
    have hun := @unescape_path segs trail hsegs
    rw [hps] at hun
    have hesc := @escape_path segs trail hsegs
    rw [hps] at hesc
    simp only [NetURL.afterQuery, hs1, hs2, hd, Bool.not_true, Bool.false_eq_true,
      if_false, Bool.true_or, Bool.true_and, if_true, List.drop_succ_cons,
      List.drop_zero, hcut, hpa, NetURL.setPath, hun]
    rw [hps, if_pos hesc]
    rfl

theorem parseRaw_simple {sch host : GoString} {port : Option GoString}
    {segs : List GoString} {trail : Bool}
    (hsl : ∀ c ∈ sch, lowerAlpha c = true) (hsch : sch ≠ [])
    (hh1 : host ≠ []) (hh2 : ∀ c ∈ host, hostChar c = true)
    (hp : ∀ p, port = some p → p ≠ [] ∧ ∀ c ∈ p, isDigitByte c = true)
    (hsegs : ∀ s ∈ segs, ∀ c ∈ s, segChar c = true) :
    NetURL.parseRaw
        (sch ++ ':' :: '/' :: '/' :: (authorityOf host port ++ pathOf segs trail))
      = .ok { NetURL.emptyURL with scheme := sch, host := authorityOf host port,
                                   path := pathOf segs trail } := by
  have hmem : ∀ c ∈ sch ++ ':' :: '/' :: '/' ::
      (authorityOf host port ++ pathOf segs trail), 32 ≤ c.toNat ∧ c.toNat ≠ 127 := by
    intro c hc
    rcases List.mem_append.mp hc with hc | hc
    · exact lowerAlpha_printable (hsl c hc)
    · rcases List.mem_cons.mp hc with rfl | hc
      · decide
      · rcases List.mem_cons.mp hc with rfl | hc
        · decide
        · rcases List.mem_cons.mp hc with rfl | hc
          · decide
          · exact simpleInput_printable hh2 (fun p hep => (hp p hep).2) hsegs c hc
  have hctl := containsCTLByte_false hmem
  have hstar : ¬(sch ++ ':' :: '/' :: '/' ::
      (authorityOf host port ++ pathOf segs trail) = str "*") := by
    intro h
    have hm : (':' : Char) ∈ sch ++ ':' :: '/' :: '/' ::
        (authorityOf host port ++ pathOf segs trail) := by simp
    rw [h] at hm
    exact absurd hm (by decide)
  have hgs := getScheme_lower
    ('/' :: '/' :: (authorityOf host port ++ pathOf segs trail)) hsl hsch
  have hnq : ∀ x ∈ ('/' :: '/' :: (authorityOf host port ++ pathOf segs trail)),
      x ≠ '?' := by
    intro x hx
    rcases List.mem_cons.mp hx with rfl | hx
    · decide
    · rcases List.mem_cons.mp hx with rfl | hx
      · decide
      · exact simpleInput_avoid hh2 (fun p hep => (hp p hep).2) hsegs
          (by decide) (by decide) (by decide) (by decide) (by decide) x hx
  have hq1 := goEndsWith_single_false hnq
  have hq2 := cutChar_not_mem hnq
  simp only [NetURL.parseRaw, hctl, Bool.false_eq_true, if_false, if_neg hstar, hgs,
    goToLower_id hsl, str_qmark, hq1, hq2, Bool.false_and, Bool.false_eq_true]
  exact afterQuery_simple hsch hh1 hh2 hp hsegs

theorem Parse_simple {sch host : GoString} {port : Option GoString}
    {segs : List GoString} {trail : Bool}
    (hsl : ∀ c ∈ sch, lowerAlpha c = true) (hsch : sch ≠ [])
    (hh1 : host ≠ []) (hh2 : ∀ c ∈ host, hostChar c = true)
    (hp : ∀ p, port = some p → p ≠ [] ∧ ∀ c ∈ p, isDigitByte c = true)
    (hsegs : ∀ s ∈ segs, ∀ c ∈ s, segChar c = true) :
    NetURL.Parse (sch ++ str "://" ++ simpleInput host port segs trail)
      = .ok { NetURL.emptyURL with scheme := sch, host := authorityOf host port,
                                   path := pathOf segs trail } := by
  have hin : sch ++ str "://" ++ simpleInput host port segs trail
      = sch ++ ':' :: '/' :: '/' :: (authorityOf host port ++ pathOf segs trail) := by
    rw [str_sep]
    simp [simpleInput]
  rw [hin]
  have hnh : ∀ x ∈ sch ++ ':' :: '/' :: '/' ::
      (authorityOf host port ++ pathOf segs trail), x ≠ '#' := by
    intro x hx
    rcases List.mem_append.mp hx with hx | hx
    · exact charPred_ne (hsl x hx) (by decide)
    · rcases List.mem_cons.mp hx with rfl | hx
      · decide
      · rcases List.mem_cons.mp hx with rfl | hx
        · decide
        · rcases List.mem_cons.mp hx with rfl | hx
          · decide
          · exact simpleInput_avoid hh2 (fun p hep => (hp p hep).2) hsegs
              (by decide) (by decide) (by decide) (by decide) (by decide) x hx
  have hcf := cutChar_not_mem hnh
  simp only [NetURL.Parse, hcf, parseRaw_simple hsl hsch hh1 hh2 hp hsegs]

theorem emptyURL_opq : NetURL.emptyURL.opq = [] := rfl

theorem emptyURL_user : NetURL.emptyURL.user = none := rfl

theorem emptyURL_rawPath : NetURL.emptyURL.rawPath = [] := rfl

theorem emptyURL_omitHost : NetURL.emptyURL.omitHost = false := rfl

theorem emptyURL_forceQuery : NetURL.emptyURL.forceQuery = false := rfl

theorem emptyURL_rawQuery : NetURL.emptyURL.rawQuery = [] := rfl

theorem emptyURL_fragment : NetURL.emptyURL.fragment = [] := rfl

theorem emptyURL_rawFragment : NetURL.emptyURL.rawFragment = [] := rfl

theorem str_star : str "*" = ['*'] := rfl

theorem escape_nil (mode : NetURL.Encoding) : NetURL.escape mode [] = [] := rfl

theorem urlString_simple {sch host : GoString} {port : Option GoString} {pth : GoString}
    (hsch : sch ≠ []) (hh1 : host ≠ []) (hh2 : ∀ c ∈ host, hostChar c = true)
    (hp : ∀ p, port = some p → p ≠ [] ∧ ∀ c ∈ p, isDigitByte c = true)
    (hsh : pth = [] ∨ ∃ p', pth = '/' :: p')
    (hesc : NetURL.escape NetURL.Encoding.path pth = pth) :
    NetURL.urlString { NetURL.emptyURL with scheme := sch,
                                            host := authorityOf host port,
                                            path := pth }
      = sch ++ str "://" ++ (authorityOf host port ++ pth) := by
  have hauth1 : authorityOf host port ≠ [] := by
    obtain ⟨h0, host', rfl⟩ := List.exists_cons_of_ne_nil hh1
    cases port <;> simp [authorityOf]
  have hea := escape_authority hh2 (fun p hep => (hp p hep).2)
  rcases hsh with rfl | ⟨p', rfl⟩
  · simp only [NetURL.urlString, NetURL.escapedPath, NetURL.querySuffix,
      NetURL.fragSuffix, emptyURL_opq, emptyURL_user, emptyURL_rawPath,
      emptyURL_omitHost, emptyURL_forceQuery, emptyURL_rawQuery,
      emptyURL_fragment, emptyURL_rawFragment]
    simp [hsch, hauth1, hea, str_sep, str_2slash, str_star, escape_nil]
  · have hstar : ('/' :: p') ≠ str "*" := by
      intro h
      rw [show str "*" = ['*'] from rfl] at h
      rcases List.cons_eq_cons.mp h with ⟨h1, _⟩
      exact absurd h1 (by decide)
    simp only [NetURL.urlString, NetURL.escapedPath, NetURL.querySuffix,
      NetURL.fragSuffix, emptyURL_opq, emptyURL_user, emptyURL_rawPath,
      emptyURL_omitHost, emptyURL_forceQuery, emptyURL_rawQuery,
      emptyURL_fragment, emptyURL_rawFragment]
    simp [hsch, hauth1, hea, hstar, hesc, str_sep, str_2slash]

theorem goTrimSuffix_cases (s : GoString) (ch : Char) :
    goTrimSuffix s [ch] = s ∨ s = goTrimSuffix s [ch] ++ [ch] := by
  rw [goTrimSuffix, show ([ch] : GoString).reverse = [ch] from rfl]
  by_cases hb : goStartsWith s.reverse [ch] = true
  · rw [if_pos hb]
    right
    rcases (goStartsWith_iff [ch] s.reverse).mp hb with ⟨r, hr⟩
    have hs : s = ((s.reverse.drop 1).reverse) ++ [ch] := by
      conv_lhs => rw [← List.reverse_reverse s]
      rw [hr]
      simp
    simpa using hs
  · rw [if_neg hb]
    left
    rfl

theorem mem_goTrimSuffix {s : GoString} {ch x : Char}
    (h : x ∈ goTrimSuffix s [ch]) : x ∈ s := by
  rcases goTrimSuffix_cases s ch with he | he
  · rwa [he] at h
  · rw [he]
    exact List.mem_append.mpr (Or.inl h)

theorem goTrimSuffix_shape {p' : GoString} :
    goTrimSuffix ('/' :: p') ['/'] = [] ∨
      ∃ q, goTrimSuffix ('/' :: p') ['/'] = '/' :: q := by
  rcases goTrimSuffix_cases ('/' :: p') '/' with he | he
  · right
    exact ⟨p', he⟩
  · cases hq : goTrimSuffix ('/' :: p') ['/'] with
    | nil => left; rfl
    | cons c q =>
      right
      refine ⟨q, ?_⟩
      rw [hq] at he
      have hc : c = '/' := by
        have h2 := congrArg List.head? he
        simpa using h2.symm
      rw [hc]

theorem authorityOf_no_slash {host : GoString} {port : Option GoString}
    (hh2 : ∀ c ∈ host, hostChar c = true)
    (hp : ∀ p, port = some p → p ≠ [] ∧ ∀ c ∈ p, isDigitByte c = true) :
    ∀ x ∈ authorityOf host port, x ≠ '/' := by
  intro x hx
  rcases mem_authorityOf hx with hx | rfl | ⟨p, hep, hxp⟩
  · exact charPred_ne (hh2 x hx) (by decide)
  · decide
  · exact charPred_ne ((hp p hep).2 x hxp) (by decide)

theorem trim_input {host : GoString} {port : Option GoString}
    {segs : List GoString} {trail : Bool}
    (hh2 : ∀ c ∈ host, hostChar c = true)
    (hp : ∀ p, port = some p → p ≠ [] ∧ ∀ c ∈ p, isDigitByte c = true) :
    goTrimSuffix (simpleInput host port segs trail) (str "/")
      = authorityOf host port ++ goTrimSuffix (pathOf segs trail) (str "/") := by
  rw [str_slash]
  rcases pathOf_shape segs trail with hps | ⟨p', hps⟩
  · rw [show simpleInput host port segs trail
        = authorityOf host port ++ pathOf segs trail from rfl, hps, List.append_nil,
      goTrimSuffix_not_mem (authorityOf_no_slash hh2 hp)]
    simp [goTrimSuffix, goStartsWith]
  · rw [show simpleInput host port segs trail
        = authorityOf host port ++ pathOf segs trail from rfl]
    exact goTrimSuffix_append_left _ (by rw [hps]; simp)

theorem urlString_trimmed {sch host : GoString} {port : Option GoString}
    {segs : List GoString} {trail : Bool}
    (hsch : sch ≠ []) (hh1 : host ≠ []) (hh2 : ∀ c ∈ host, hostChar c = true)
    (hp : ∀ p, port = some p → p ≠ [] ∧ ∀ c ∈ p, isDigitByte c = true)
    (hsegs : ∀ s ∈ segs, ∀ c ∈ s, segChar c = true) :
    NetURL.urlString { NetURL.emptyURL with
                       scheme := sch,
                       host := authorityOf host port,
                       path := goTrimSuffix (pathOf segs trail) (str "/") }
      = sch ++ str "://" ++
          (authorityOf host port ++ goTrimSuffix (pathOf segs trail) (str "/")) := by
  rw [str_slash]
  apply urlString_simple hsch hh1 hh2 hp
  · rcases pathOf_shape segs trail with hps | ⟨p', hps⟩
    · rw [hps]
      left
      rfl
    · rw [hps]
      exact goTrimSuffix_shape
  · apply escape_noop
    intro c hc
    exact pathOf_shouldEscape hsegs c (mem_goTrimSuffix hc)

theorem newClient_scheme_input {sch host : GoString} {port : Option GoString}
    {segs : List GoString} {trail : Bool}
    (hsl : ∀ c ∈ sch, lowerAlpha c = true) (hsch : sch ≠ [])
    (hh1 : host ≠ []) (hh2 : ∀ c ∈ host, hostChar c = true)
    (hp : ∀ p, port = some p → p ≠ [] ∧ ∀ c ∈ p, isDigitByte c = true)
    (hsegs : ∀ s ∈ segs, ∀ c ∈ s, segChar c = true) :
    newClientBaseURL (sch ++ str "://" ++ simpleInput host port segs trail)
      = some (sch ++ str "://" ++
          (authorityOf host port ++ goTrimSuffix (pathOf segs trail) (str "/"))) := by
  have hcont : goContains (sch ++ str "://" ++ simpleInput host port segs trail)
      (str "://") = true :=
    goContains_of_split sch (simpleInput host port segs trail) rfl
  simp only [newClientBaseURL, NewClient]
  rw [hcont]
  simp only [eq_self_iff_true, if_true]
  rw [Parse_simple hsl hsch hh1 hh2 hp hsegs]
  simp [urlString_trimmed hsch hh1 hh2 hp hsegs]

theorem newClient_plain_input {host : GoString} {port : Option GoString}
    {segs : List GoString} {trail : Bool}
    (hh1 : host ≠ []) (hh2 : ∀ c ∈ host, hostChar c = true)
    (hp : ∀ p, port = some p → p ≠ [] ∧ ∀ c ∈ p, isDigitByte c = true)
    (hsegs : ∀ s ∈ segs, ∀ c ∈ s, segChar c = true) :
    newClientBaseURL (simpleInput host port segs trail)
      = some (str "http://" ++
          goTrimSuffix (simpleInput host port segs trail) (str "/")) := by
  have hcont := @simpleInput_no_scheme_sep host port segs trail hh2 hp hsegs
  have hP := @Parse_simple (str "http") host port segs trail (by decide) (by decide)
    hh1 hh2 hp hsegs
  have hcat : str "http" ++ str "://" ++ simpleInput host port segs trail
      = str "http://" ++ simpleInput host port segs trail := rfl
  rw [hcat] at hP
  have hU := @urlString_trimmed (str "http") host port segs trail (by decide)
    hh1 hh2 hp hsegs
  have hcat2 : str "http" ++ str "://" ++
      (authorityOf host port ++ goTrimSuffix (pathOf segs trail) (str "/"))
      = str "http://" ++
        (authorityOf host port ++ goTrimSuffix (pathOf segs trail) (str "/")) := rfl
  rw [hcat2] at hU
  simp only [newClientBaseURL, NewClient]
  rw [hcont]
  simp only [Bool.false_eq_true, if_false]
  rw [hP]
  simp [hU, trim_input hh2 hp]

theorem simpleInput_ne_nil {host : GoString} {port : Option GoString}
    {segs : List GoString} {trail : Bool} (hh1 : host ≠ []) :
    simpleInput host port segs trail ≠ [] := by
  obtain ⟨h0, t, rfl⟩ := List.exists_cons_of_ne_nil hh1
  simp [simpleInput, authorityOf]

/-- C4 (amended): base-URL normalization. For well-formed inputs of the shape
`host[:port][/seg...][/]` (letters, digits, dots and dashes in the host,
digits in the port, unreserved path bytes in the segments): an input without
"://" is stored as "http://" plus the input with a single trailing slash
removed, and an input with a lower-case scheme is stored as the input itself
with a single trailing slash removed (scheme preserved).  In general the
stored URL is the re-serialization of the parsed URL, which can differ from
the input (the counterexample: empty input is stored as "http:"), and
construction returns a client exactly when Go URL parsing of the (possibly
"http://"-prefixed) input succeeds — otherwise it fails with an error and no
client is returned. -/
theorem claim_C4_amended :
    (∀ (host : GoString) (port : Option GoString) (segs : List GoString) (trail : Bool),
      host ≠ [] → (∀ c ∈ host, hostChar c = true) →
      (∀ p, port = some p → p ≠ [] ∧ ∀ c ∈ p, isDigitByte c = true) →
      (∀ s ∈ segs, ∀ c ∈ s, segChar c = true) →
      newClientBaseURL (simpleInput host port segs trail)
        = some (str "http://" ++ goTrimSuffix (simpleInput host port segs trail) (str "/")))
    ∧ (∀ (sch host : GoString) (port : Option GoString) (segs : List GoString) (trail : Bool),
      sch ≠ [] → (∀ c ∈ sch, lowerAlpha c = true) →
      host ≠ [] → (∀ c ∈ host, hostChar c = true) →
      (∀ p, port = some p → p ≠ [] ∧ ∀ c ∈ p, isDigitByte c = true) →
      (∀ s ∈ segs, ∀ c ∈ s, segChar c = true) →
      newClientBaseURL (sch ++ str "://" ++ simpleInput host port segs trail)
        = some (goTrimSuffix (sch ++ str "://" ++ simpleInput host port segs trail)
            (str "/")))
    ∧ (∀ (baseURL : GoString) (options : List ClientOption),
        (NewClient baseURL options).toOption.isSome
          = (NetURL.Parse (if goContains baseURL (str "://") then baseURL
              else str "http://" ++ baseURL)).toOption.isSome) := by
  refine ⟨?_, ?_, ?_⟩
  · intro host port segs trail hh1 hh2 hp hsegs
    exact newClient_plain_input hh1 hh2 hp hsegs
  · intro sch host port segs trail hsch hsl hh1 hh2 hp hsegs
    rw [newClient_scheme_input hsl hsch hh1 hh2 hp hsegs]
    have htrim := @trim_input host port segs trail hh2 hp
    rw [str_slash] at htrim
    have h1 : goTrimSuffix (sch ++ str "://" ++ simpleInput host port segs trail)
        (str "/")
        = sch ++ str "://" ++
            (authorityOf host port ++ goTrimSuffix (pathOf segs trail) (str "/")) := by
      rw [str_slash]
      rw [goTrimSuffix_append_left (sch ++ str "://") (simpleInput_ne_nil hh1)]
      rw [htrim]
    rw [h1]
  · intro baseURL options
    simp only [NewClient]
    cases NetURL.Parse (if goContains baseURL (str "://") = true then baseURL
        else str "http://" ++ baseURL) <;> rfl

/-- C4 (witness): the repository test input "localhost:8000/" normalizes to
"http://localhost:8000", and the scheme input "https://example.com:8000/docs/"
keeps its scheme and loses one trailing slash. -/
theorem claim_C4_witness :
    newClientBaseURL (str "localhost:8000/") = some (str "http://localhost:8000")
    ∧ newClientBaseURL (str "https://example.com:8000/docs/")
        = some (str "https://example.com:8000/docs") := by
  constructor
  · have h := claim_C4_amended.1 (str "localhost") (some (str "8000")) [] true
      (by decide) (by decide)
      (by
        intro p hp
        cases hp
        exact ⟨by decide, by decide⟩)
      (by
        intro s hs
        cases hs)
    exact h.trans (by decide)
  · have h := claim_C4_amended.2.1 (str "https") (str "example.com")
      (some (str "8000")) [str "docs"] true
      (by decide) (by decide) (by decide) (by decide)
      (by
        intro p hp
        cases hp
        exact ⟨by decide, by decide⟩)
      (by
        intro s hs
        rcases List.mem_singleton.mp hs with rfl
        decide)
    exact h.trans (by decide)
